import Mathlib

/-!
Verification of the shazam-clone fingerprinting and matching core.

Shallow embedding of the audio-fingerprint identification pipeline of the
`shazam-clone` repository:

* `backend/app/fingerprint.py` — peak picking (`find_peaks`) and combinatorial
  hashing (`generate_hashes`);
* `backend/app/database.py` — ingest (`add_song`), matching (`find_matches`),
  statistics (`get_database_stats`), content digests (`_generate_file_hash`);
* `backend/app/models.py` — the declared store schema (`songs`, `fingerprints`),
  including the `NOT NULL`/`UNIQUE` constraint on `songs.file_hash` and the
  foreign key `fingerprints.song_id → songs.id`.

Numbers: Python ints are `Nat`/`Int`; spectrogram amplitudes and the float
arithmetic of thresholds/confidences are embedded over `ℚ` (the code only
compares and interpolates, so exact rationals are faithful).  Python `dict`s
are embedded as insertion-ordered association lists: updating an existing key
keeps its position, a new key is appended at the end — exactly the iteration
semantics CPython guarantees and that the matcher's tie-breaking relies on.
-/

namespace ShazamClone

/-! ## Insertion-ordered association lists (Python `dict`) -/

/-- First value bound to key `k`, scanning left to right (`dict.get`). -/
def alistGet? {α β : Type} [DecidableEq α] (k : α) : List (α × β) → Option β
  | [] => none
  | e :: rest => if e.1 = k then some e.2 else alistGet? k rest

/-! ## `find_matches` query subsampling (`database.py` lines 209–217)

```
MAX_QUERY_FINGERPRINTS = 400
if len(query_fingerprints) > MAX_QUERY_FINGERPRINTS:
    step = len(query_fingerprints) // MAX_QUERY_FINGERPRINTS
    sampled_fingerprints = query_fingerprints[::step][:MAX_QUERY_FINGERPRINTS]
else:
    sampled_fingerprints = query_fingerprints
```
-/

/-- Python extended slice `l[::s]` for a positive step `s`:
the elements at indices `0, s, 2·s, …`.  Structural recursion on a fuel
bounded by the list length (so the definition reduces in the kernel). -/
def everyNthAux {α : Type} (s : Nat) : Nat → List α → List α
  | 0, _ => []
  | _, [] => []
  | fuel + 1, x :: xs => x :: everyNthAux s fuel (xs.drop (s - 1))

/-- Python extended slice `l[::s]` for a positive step `s`. -/
def everyNth {α : Type} (s : Nat) (l : List α) : List α :=
  everyNthAux s l.length l

/-- The `database.py` constant `MAX_QUERY_FINGERPRINTS`. -/
def MAX_QUERY_FINGERPRINTS : Nat := 400

/-- The strategic-sampling step of `find_matches`. -/
def sampleQuery {α : Type} (q : List α) : List α :=
  if MAX_QUERY_FINGERPRINTS < q.length then
    ((everyNth (q.length / MAX_QUERY_FINGERPRINTS) q).take MAX_QUERY_FINGERPRINTS)
  else q

/-! ## The hasher (`fingerprint.py`, `AudioFingerprinter.generate_hashes`)

Parameters fixed in `AudioFingerprinter.__init__`:
`fan_value = 5`, `target_zone_width = 75`, `target_zone_start = 1`.

```
for i, peak1 in enumerate(peaks):
    for j in range(i + self.target_zone_start,
                  min(i + self.target_zone_width, len(peaks))):
        peak2 = peaks[j]
        time1, freq1 = peak1
        time2, freq2 = peak2
        time_delta = time2 - time1
        hash_string = f"{freq1}|{freq2}|{time_delta}"
        hash_value = hashlib.sha1(hash_string.encode()).hexdigest()
        hashes.append((hash_value, time1))
        if j - i >= self.fan_value:
            break
```

The SHA-1 hexdigest is a fixed deterministic function of `hash_string`; we
embed the emitted hash by its preimage `(freq1, freq2, time_delta)` together
with the formatted string, which preserves everything the claims (and the
matcher, which only tests hashes for equality) depend on.
-/

/-- The `fan_value` (`fingerprint.py` line 48). -/
def fan_value : Nat := 5

/-- The `target_zone_width` (`fingerprint.py` line 49). -/
def target_zone_width : Nat := 75

/-- The `target_zone_start` (`fingerprint.py` line 50). -/
def target_zone_start : Nat := 1

/-- Inner `j`-loop of `generate_hashes` for anchor index `i`, over the
(ascending, consecutive) list of remaining `j` values; emits structured
`((freq1, freq2, time_delta), time1)` tuples and models the
`if j - i >= self.fan_value: break`. -/
def pairsFrom (peaks : List (Int × Int)) (i : Nat) : List Nat → List ((Int × Int × Int) × Int)
  | [] => []
  | j :: js =>
    let p1 := peaks.getD i (0, 0)
    let p2 := peaks.getD j (0, 0)
    ((p1.2, p2.2, p2.1 - p1.1), p1.1) ::
      (if fan_value ≤ j - i then [] else pairsFrom peaks i js)

/-- The `j` values visited by the inner loop before any `break`:
`range(i + target_zone_start, min(i + target_zone_width, len(peaks)))`. -/
def targetZone (i len : Nat) : List Nat :=
  List.range' (i + target_zone_start) (min (i + target_zone_width) len - (i + target_zone_start))

/-- The `generate_hashes`, with each emitted hash kept as its structured preimage
`((freq1, freq2, time_delta), time1)`. -/
def generatePairs (peaks : List (Int × Int)) : List ((Int × Int × Int) × Int) :=
  (List.range peaks.length).flatMap fun i => pairsFrom peaks i (targetZone i peaks.length)

/-- The `hash_string = f"{freq1}|{freq2}|{time_delta}"` formatting; the code
then applies `hashlib.sha1(...).hexdigest()`, a deterministic injective-for-
our-purposes map that we elide. -/
def hashString (t : Int × Int × Int) : String :=
  toString t.1 ++ "|" ++ toString t.2.1 ++ "|" ++ toString t.2.2

/-- The `AudioFingerprinter.generate_hashes` as the list of
`(hash-preimage-string, time1)` pairs. -/
def generate_hashes (peaks : List (Int × Int)) : List (String × Int) :=
  (generatePairs peaks).map fun e => (hashString e.1, e.2)

/-! ## The peak picker (`fingerprint.py`, `AudioFingerprinter.find_peaks`)

```
local_max = maximum_filter(spectrogram, size=neighborhood_size)   # size = 10
is_peak = (spectrogram == local_max)
is_peak[0] = False
is_peak[-1] = False
is_peak[:, 0] = False
is_peak[:, -1] = False
threshold = np.percentile(spectrogram, 90)
peaks = np.where(is_peak & (spectrogram >= threshold))
peak_list = list(zip(peaks[1], peaks[0]))
peak_list.sort(key=lambda x: x[0])
```

The spectrogram is a rectangular matrix indexed `S[f, t]` (rows = frequency
bins, columns = time frames), embedded as `List (List ℚ)`.
`scipy.ndimage.maximum_filter` with `size = 10` and its default
`mode = "reflect"` takes, for each cell, the maximum over the offsets
`-5 … +4` along both axes, with out-of-range indices reflected
(`d c b a | a b c d | d c b a`).  `np.where` enumerates true cells in
row-major order, and Python's `list.sort` is stable, so equal-time landmarks
keep the (frequency-ascending) order `np.where` produced.  `list.sort` is
embedded as a stable insertion sort on the time key — any stable sort by a
key computes the same list. -/

/-- The `S[r][c]` with an (unused on rectangular inputs) default of `0`. -/
def cell (S : List (List ℚ)) (r c : Nat) : ℚ := (S.getD r []).getD c 0

/-- The `mode="reflect"` index folding of `scipy.ndimage`: half-sample symmetric
reflection of an arbitrary integer index into `[0, n)`. -/
def reflectIdx (n : Nat) (i : Int) : Nat :=
  if n = 0 then 0
  else
    let m : Int := 2 * n
    let j := i % m
    (if j < n then j else m - 1 - j).toNat

/-- The values of the `size = 10` filter window centred (offsets `-5 … +4`)
at `(r, c)`, boundary handled by reflection. -/
def windowVals (S : List (List ℚ)) (r c : Nat) : List ℚ :=
  (List.range 10).flatMap fun dr =>
    (List.range 10).map fun dc =>
      cell S (reflectIdx S.length ((r : Int) + dr - 5))
             (reflectIdx (S.headD []).length ((c : Int) + dc - 5))

/-- The `maximum_filter(spectrogram, size=10)` at cell `(r, c)`. -/
def localMax (S : List (List ℚ)) (r c : Nat) : ℚ :=
  match windowVals S r c with
  | [] => 0
  | v :: vs => vs.foldl max v

/-- Ordered insertion used to model sorting a list of rationals. -/
def insertQ (x : ℚ) : List ℚ → List ℚ
  | [] => [x]
  | y :: ys => if x ≤ y then x :: y :: ys else y :: insertQ x ys

/-- Ascending sort of the flattened spectrogram values. -/
def sortQ (l : List ℚ) : List ℚ := l.foldr insertQ []

/-- The `np.percentile(spectrogram, 90)` with numpy's default linear
interpolation: virtual index `p = 0.9·(n−1)`, result
`a[⌊p⌋] + (p − ⌊p⌋)·(a[⌊p⌋+1] − a[⌊p⌋])` over the sorted flattened data. -/
def percentile90 (S : List (List ℚ)) : ℚ :=
  let sorted := sortQ S.flatten
  let n := sorted.length
  if n = 0 then 0
  else
    let p : ℚ := ((n : ℚ) - 1) * (90 / 100)
    let k : Nat := (⌊p⌋).toNat
    let d : ℚ := p - (k : ℚ)
    let ak := sorted.getD k 0
    let ak1 := sorted.getD (k + 1) 0
    ak + d * (ak1 - ak)

/-- The landmark condition of `find_peaks`: the cell equals its
`maximum_filter` value, is not in the first/last row or column, and is at or
above the percentile threshold `θ` (computed once per spectrogram). -/
def landmarkB (S : List (List ℚ)) (θ : ℚ) (r c : Nat) : Bool :=
  (cell S r c == localMax S r c)
    && !(r == 0) && !(r == S.length - 1)
    && !(c == 0) && !(c == (S.headD []).length - 1)
    && (θ ≤ cell S r c)

/-- The `(t, f)` pairs contributed by spectrogram row (frequency bin) `r`,
in time order — one row of the row-major `np.where` scan. -/
def peakRow (S : List (List ℚ)) (θ : ℚ) (r : Nat) : List (Nat × Nat) :=
  (List.range (S.headD []).length).filterMap fun c =>
    if landmarkB S θ r c then some (c, r) else none

/-- The `list(zip(peaks[1], peaks[0]))` for `peaks = np.where(...)`: the `(t, f)`
pairs of landmark cells in row-major (`f`-then-`t`) scan order. -/
def unsortedPeaks (S : List (List ℚ)) : List (Nat × Nat) :=
  (List.range S.length).flatMap (peakRow S (percentile90 S))

/-- Stable insertion (by the time component) modelling
`peak_list.sort(key=lambda x: x[0])`: an element is placed after every
already-present element whose key is `≤` its own. -/
def insertByTime (x : Nat × Nat) : List (Nat × Nat) → List (Nat × Nat)
  | [] => [x]
  | y :: ys => if x.1 < y.1 then x :: y :: ys else y :: insertByTime x ys

/-- Stable sort by time: elements are inserted in their original order. -/
def sortByTime (l : List (Nat × Nat)) : List (Nat × Nat) :=
  l.foldl (fun acc x => insertByTime x acc) []

/-- The `AudioFingerprinter.find_peaks`. -/
def find_peaks (S : List (List ℚ)) : List (Nat × Nat) :=
  sortByTime (unsortedPeaks S)

/-! ## The store (`models.py`)

`songs(id PK autoincrement-from-1, title, artist, album nullable,
duration nullable, file_hash UNIQUE NOT NULL)` and
`fingerprints(hash_value NOT NULL, time_offset NOT NULL,
song_id NOT NULL FK → songs.id)`.  `DatabaseManager` creates these tables via
`Base.metadata.create_all`, so the declared constraints are enforced on every
insert the Python code performs. -/

/-- A row of the `songs` table. -/
structure SongRow where
  id : Nat
  title : String
  artist : String
  album : Option String
  duration : Option ℚ
  file_hash : Option String
  deriving DecidableEq, Repr

/-- A row of the `fingerprints` table (the surrogate `id` and `created_at`
columns play no role in any claim and are elided). -/
structure FpRow where
  hash_value : String
  time_offset : Int
  song_id : Nat
  deriving DecidableEq, Repr

/-- The store state: committed rows plus the next autoincrement id. -/
structure DBState where
  songs : List SongRow
  fingerprints : List FpRow
  nextId : Nat
  deriving DecidableEq, Repr

/-! ## `DatabaseManager._generate_file_hash` and `add_song` (`database.py`)

```
def _generate_file_hash(self, filepath):
    if not filepath or not os.path.exists(filepath):
        return None
    ... sha256 of the file bytes ... return hexdigest

def add_song(self, title, artist, fingerprints, album=None, duration=None,
             filepath=None):
    file_hash = self._generate_file_hash(filepath) if filepath else None
    if file_hash:
        existing_song = session.query(Song).filter(Song.file_hash == file_hash).first()
        if existing_song: return existing_song.id
    song = Song(..., file_hash=file_hash); session.add(song); session.flush()
    session.bulk_insert_mappings(Fingerprint, fingerprint_dicts)
    session.commit(); return song.id
```

The filesystem is a map `fs : String → Option String` from path to raw file
bytes (`none` = `os.path.exists` is false).  The SHA-256 hexdigest is a fixed
deterministic function of the bytes; it is embedded as the identity on the
content (determinism — equal bytes, equal digest — is all any claim uses).
`session.flush()` sends `INSERT INTO songs` to the store, which enforces the
declared `NOT NULL` and `UNIQUE` constraints on `file_hash`; a violation
raises, `add_song` rolls back and re-raises (`Except.error`). -/

/-- SHA-256 hexdigest of the file bytes, embedded as the identity on the
content (a deterministic function of the bytes). -/
def sha256hex (content : String) : String := content

/-- The `DatabaseManager._generate_file_hash`. -/
def generate_file_hash (fs : String → Option String) (filepath : Option String) :
    Option String :=
  match filepath with
  | none => none
  | some p =>
    if p = "" then none
    else match fs p with
      | none => none
      | some content => some (sha256hex content)

/-- Python truthiness of the `filepath` argument (`None` and `""` are falsy). -/
def truthyPath : Option String → Bool
  | none => false
  | some p => !(p == "")

/-- The `DatabaseManager.add_song`.  Returns the resulting store state and the
returned song id, or the exception message re-raised after rollback. -/
def add_song (db : DBState) (title artist : String)
    (fingerprints : List (String × Int))
    (album : Option String) (duration : Option ℚ)
    (filepath : Option String) (fs : String → Option String) :
    Except String (DBState × Nat) :=
  let file_hash := if truthyPath filepath then generate_file_hash fs filepath else none
  let dup := match file_hash with
    | some h => db.songs.find? fun (s : SongRow) => s.file_hash = some h
    | none => none
  match dup with
  | some existing => .ok (db, existing.id)
  | none =>
    -- `session.flush()`: INSERT INTO songs — the store enforces the schema
    match file_hash with
    | none => .error "IntegrityError: null value in column file_hash violates not-null constraint"
    | some h =>
      if db.songs.any (fun s => s.file_hash = some h) then
        .error "IntegrityError: duplicate key value violates unique constraint songs_file_hash_key"
      else
        let sid := db.nextId
        let song : SongRow := ⟨sid, title, artist, album, duration, some h⟩
        let fpRows := fingerprints.map fun (p : String × Int) => FpRow.mk p.1 p.2 sid
        .ok (⟨db.songs ++ [song], db.fingerprints ++ fpRows, sid + 1⟩, sid)

/-! ## `DatabaseManager.__init__` / `get_database_stats` (`database.py`)

`__init__` assigns only `self.engine` and `self.SessionLocal`; the attributes
`_stats_cache`, `_stats_cache_time` and `_cache_duration` read by
`get_database_stats` are assigned nowhere before that method runs (only
`get_database_stats` itself and the never-called `_invalidate_stats_cache`
write the first two; `_cache_duration` is written nowhere in the class).
Attribute state is embedded with an outer `Option` meaning "the attribute
exists on the instance"; reading an absent attribute is an
`AttributeError`. -/

/-- The dictionary returned by `get_database_stats`. -/
structure Stats where
  total_songs : Nat
  total_fingerprints : Nat
  avg_fingerprints_per_song : ℚ
  deriving DecidableEq, Repr

/-- The attribute state of a `DatabaseManager` instance relevant to the stats
cache.  Outer `Option` = attribute present on the instance; inner value =
the Python value (`Option` again where the value may be `None`). -/
structure ManagerState where
  stats_cache : Option (Option Stats)
  stats_cache_time : Option (Option ℚ)
  cache_duration : Option ℚ
  deriving DecidableEq, Repr

/-- The `DatabaseManager.__init__`: no stats-cache attribute is assigned. -/
def managerInit : ManagerState := ⟨none, none, none⟩

/-- The cache-miss path of `get_database_stats`: query counts, build the
stats dict, assign `_stats_cache` and `_stats_cache_time`. -/
def computeStats (m : ManagerState) (db : DBState) (now : ℚ) :
    Stats × ManagerState :=
  let song_count := db.songs.length
  let fingerprint_count := db.fingerprints.length
  let stats : Stats :=
    ⟨song_count, fingerprint_count,
     if 0 < song_count then (fingerprint_count : ℚ) / (song_count : ℚ) else 0⟩
  (stats, { m with stats_cache := some (some stats), stats_cache_time := some (some now) })

/-- The `DatabaseManager.get_database_stats`.  `now` is `datetime.now()`. -/
def get_database_stats (m : ManagerState) (db : DBState) (now : ℚ) :
    Except String (Stats × ManagerState) :=
  match m.stats_cache with
  | none => .error "AttributeError: _stats_cache"
  | some cache =>
    match cache with
    | none => .ok (computeStats m db now)      -- `self._stats_cache` falsy: skip to recompute
    | some cached =>
      match m.stats_cache_time with
      | none => .error "AttributeError: _stats_cache_time"
      | some none => .ok (computeStats m db now)   -- cache time falsy: recompute
      | some (some t) =>
        match m.cache_duration with
        | none => .error "AttributeError: _cache_duration"
        | some dur =>
          if now - t < dur then .ok (cached, m)
          else .ok (computeStats m db now)

/-! ## The matcher (`DatabaseManager.find_matches`, `database.py` 156–337)

Thresholds (lines 179–182):
```
EXPECTED_GOOD_MATCH = 100
MIN_MATCH_PERCENTAGE = 0.05
MIN_MATCHING_FINGERPRINTS = int(EXPECTED_GOOD_MATCH * MIN_MATCH_PERCENTAGE)  # 5
MIN_CONFIDENCE_PERCENTAGE = MIN_MATCH_PERCENTAGE * 100                       # 5
```
Accumulator: `matches = {song_id: {time_delta: count}}` — a Python dict of
dicts, embedded as insertion-ordered association lists (`Matches`). -/

/-- The `EXPECTED_GOOD_MATCH`. -/
def EXPECTED_GOOD_MATCH : Nat := 100

/-- The `MIN_MATCH_PERCENTAGE` (`0.05`). -/
def MIN_MATCH_PERCENTAGE : ℚ := 5 / 100

/-- The `MIN_MATCHING_FINGERPRINTS = int(100 * 0.05)` (`int` truncates). -/
def MIN_MATCHING_FINGERPRINTS : Nat :=
  (⌊(EXPECTED_GOOD_MATCH : ℚ) * MIN_MATCH_PERCENTAGE⌋).toNat

/-- The `MIN_CONFIDENCE_PERCENTAGE = MIN_MATCH_PERCENTAGE * 100`. -/
def MIN_CONFIDENCE_PERCENTAGE : ℚ := MIN_MATCH_PERCENTAGE * 100

/-- The `BATCH_SIZE`. -/
def BATCH_SIZE : Nat := 100

/-- The per-song `{time_delta: count}` histogram. -/
abbrev DeltaMap := List (Int × Nat)

/-- The `matches` accumulator `{song_id: {time_delta: count}}`. -/
abbrev Matches := List (Nat × DeltaMap)

/-- The `matches[song_id][time_delta] = matches[song_id].get(time_delta, 0) + 1`
on the inner dict: in-place update of an existing key, append of a new one. -/
def bumpCount : DeltaMap → Int → DeltaMap
  | [], d => [(d, 1)]
  | e :: rest, d => if e.1 = d then (d, e.2 + 1) :: rest else e :: bumpCount rest d

/-- The `if song_id not in matches: matches[song_id] = {}` followed by the inner
increment: in-place update of an existing song entry, append of a new one. -/
def bumpDelta : Matches → Nat → Int → Matches
  | [], sid, d => [(sid, [(d, 1)])]
  | e :: rest, sid, d =>
    if e.1 = sid then (sid, bumpCount e.2 d) :: rest else e :: bumpDelta rest sid d

/-- The `max(time_deltas.values())` (the per-song histogram peak); `0` on the
empty dict, which the matcher never produces. -/
def maxCounts (dm : DeltaMap) : Nat := dm.foldl (fun acc e => max acc e.2) 0

/-- The `max(max(deltas.values()) for deltas in matches.values())` for the
early-exit check. -/
def bestScoreAll (m : Matches) : Nat := m.foldl (fun acc e => max acc (maxCounts e.2)) 0

/-- The `max(time_deltas, key=time_deltas.get)`: the first key in iteration
(= insertion) order whose count is maximal — Python's `max` keeps the current
candidate on ties.  `0` on the empty dict, which the matcher never queries. -/
def maxKeyByCount : DeltaMap → Int
  | [] => 0
  | e :: rest => (rest.foldl (fun best p => if best.2 < p.2 then p else best) e).1

/-- The `fingerprints` table rows whose `hash_value` is in the batch's hash list
(`session.query(...).filter(Fingerprint.hash_value.in_(query_hashes))`).
Result order: the model fixes the (SQL-unspecified) order to table order,
which no claim depends on. -/
def batchRows (rows : List FpRow) (batch : List (String × Int)) : List FpRow :=
  rows.filter fun r => (batch.map Prod.fst).contains r.hash_value

/-- The `hash_map[hash_val].append((time_offset, song_id))` with the
`if hash_val not in hash_map: hash_map[hash_val] = []` guard. -/
def hmAppend : List (String × List (Int × Nat)) → String → (Int × Nat) →
    List (String × List (Int × Nat))
  | [], h, v => [(h, [v])]
  | e :: rest, h, v =>
    if e.1 = h then (h, e.2 ++ [v]) :: rest else e :: hmAppend rest h v

/-- The per-batch `hash_map` built from the returned rows. -/
def buildHashMap (rows : List FpRow) : List (String × List (Int × Nat)) :=
  rows.foldl (fun hm r => hmAppend hm r.hash_value (r.time_offset, r.song_id)) []

/-- Processing of one batch: look up the batch's hashes, build `hash_map`,
then for every `(query_hash, query_offset)` of the batch and every posting
`(db_offset, song_id)` under that hash, increment
`matches[song_id][db_offset - query_offset]`. -/
def accumulateBatch (rows : List FpRow) (batch : List (String × Int)) (m : Matches) :
    Matches :=
  if (batch.map Prod.fst).isEmpty then m     -- `if not query_hashes: continue`
  else
    let hm := buildHashMap (batchRows rows batch)
    batch.foldl
      (fun m q =>
        ((alistGet? q.1 hm).getD []).foldl
          (fun m p => bumpDelta m p.2 (p.1 - q.2)) m)
      m

/-- The `range(0, len(sampled), BATCH_SIZE)` slicing into batches of 100;
structural recursion on a fuel bounded by the list length. -/
def chunksAux {α : Type} : Nat → List α → List (List α)
  | 0, _ => []
  | _, [] => []
  | fuel + 1, x :: xs =>
    (x :: xs).take BATCH_SIZE :: chunksAux fuel ((x :: xs).drop BATCH_SIZE)

/-- The `range(0, len(sampled), BATCH_SIZE)` slicing into batches of 100. -/
def chunks100 {α : Type} (l : List α) : List (List α) := chunksAux l.length l

/-- The batch loop with the early exit
(`if matches: best_score = max(...); if best_score > 80: break`). -/
def runBatches (rows : List FpRow) : List (List (String × Int)) → Matches → Matches
  | [], m => m
  | b :: rest, m =>
    let m1 := accumulateBatch rows b m
    if m1.isEmpty then runBatches rows rest m1
    else if 80 < bestScoreAll m1 then m1
    else runBatches rows rest m1

/-- The `matches` accumulator as left by the batch loop of `find_matches`. -/
def accumulated (rows : List FpRow) (query : List (String × Int)) : Matches :=
  runBatches rows (chunks100 (sampleQuery query)) []

/-- The ranking loop (lines 281–294): fold in dict-iteration order, keeping
`(best_match, best_alignment)` and `best_score`, updating only on a strictly
greater `max_count`.  `best_match`/`best_alignment` are assigned together, so
they are embedded as one `Option` pair. -/
def rank (m : Matches) : Option (Nat × Int) × Nat :=
  m.foldl
    (fun st e =>
      let mc := maxCounts e.2
      if st.2 < mc then (some (e.1, maxKeyByCount e.2), mc) else st)
    (none, 0)

/-- The result dictionary of an accepted match. -/
structure MatchResult where
  song_id : Nat
  title : String
  artist : String
  album : Option String
  confidence : Nat
  total_query_prints : Nat
  alignment_offset : Int
  confidence_percentage : ℚ
  deriving DecidableEq, Repr

/-- The `confidence_pct = min(100, (best_score / 100) * 100)` (line 298). -/
def confidencePct (best_score : Nat) : ℚ :=
  min 100 ((best_score : ℚ) / 100 * 100)

/-- The `DatabaseManager.find_matches`.  `None` is `none`; the `matched` result
dictionary is `some`. -/
def find_matches (db : DBState) (query : List (String × Int)) : Option MatchResult :=
  let ms := accumulated db.fingerprints query
  if ms.isEmpty then none
  else
    let ranked := rank ms
    let best_score := ranked.2
    let confidence_pct := confidencePct best_score
    if best_score < MIN_MATCHING_FINGERPRINTS then none
    else if confidence_pct < MIN_CONFIDENCE_PERCENTAGE then none
    else
      match ranked.1 with
      | none => none                          -- `if best_match …` with `best_match = None`
      | some (sid, alignment) =>
        if sid = 0 then none                  -- `if best_match …` with falsy id `0`
        else if 0 < best_score then
          match db.songs.find? (fun (s : SongRow) => s.id = sid) with
          | none => none                      -- song id missing from `songs`
          | some song =>
            some ⟨song.id, song.title, song.artist, song.album, best_score,
                  query.length, alignment, confidence_pct⟩
        else none

/-! ## Concrete instances used by counterexamples and witnesses -/

/-- A 12×12 spectrogram that is `0` everywhere except two horizontally
adjacent cells of value `10` at `(f, t) = (5, 5)` and `(5, 6)` — two cells in
one peak neighbourhood sharing the same maximal value. -/
def S0 : List (List ℚ) :=
  (List.range 12).map fun r =>
    (List.range 12).map fun c =>
      if r = 5 ∧ (c = 5 ∨ c = 6) then 10 else 0

/-- Recording 1 of the tie-break scenario. -/
def song1 : SongRow := ⟨1, "one", "artA", none, none, some "f1"⟩

/-- Recording 2 of the tie-break scenario. -/
def song2 : SongRow := ⟨2, "two", "artB", none, none, some "f2"⟩

/-- The `fingerprints` rows for the tie-break scenario: hashes `a1 … a5` each
have a posting for recording 2 (offset 10) *and* one for recording 1
(offset 3); hashes `b1 … b5` have one posting each for recording 2
(offset 5). -/
def rowsC2 : List FpRow :=
  (["a1", "a2", "a3", "a4", "a5"].flatMap fun h => [FpRow.mk h 10 2, FpRow.mk h 3 1])
    ++ (["b1", "b2", "b3", "b4", "b5"].map fun h => FpRow.mk h 5 2)

/-- The tie-break store: recordings 1 and 2 with the rows above. -/
def dbC2 : DBState := ⟨[song1, song2], rowsC2, 3⟩

/-- Query of ten distinct hashes, all at offset 0: recording 2 accumulates
the histogram `{10: 5, 5: 5}` (two tied Δt) and recording 1 accumulates
`{3: 5}`, so recordings 1 and 2 tie at peak 5. -/
def qC2 : List (String × Int) :=
  (["a1", "a2", "a3", "a4", "a5"] ++ ["b1", "b2", "b3", "b4", "b5"]).map fun h => (h, 0)

/-! ## Derived definitions used by the proofs -/

/-- The structured tuple `generate_hashes` emits for anchor index `i` and
partner index `j`. -/
def emittedPair (peaks : List (Int × Int)) (i j : Nat) : (Int × Int × Int) × Int :=
  (((peaks.getD i (0, 0)).2, (peaks.getD j (0, 0)).2,
    (peaks.getD j (0, 0)).1 - (peaks.getD i (0, 0)).1), (peaks.getD i (0, 0)).1)

/-- Strict time-then-frequency lexicographic order on `(t, f)` landmarks. -/
def lexLt (a b : Nat × Nat) : Prop := a.1 < b.1 ∨ (a.1 = b.1 ∧ a.2 < b.2)

/-- The running "current maximum" of Python's `max(..., key=...)`:
replace only on a strictly greater key value, so the first maximum wins. -/
def pickMax (b : Int × Nat) (rest : List (Int × Nat)) : Int × Nat :=
  rest.foldl (fun best p => if best.2 < p.2 then p else best) b

/-- The body of the ranking loop (`database.py` lines 286–294). -/
def rankStep (st : Option (Nat × Int) × Nat) (e : Nat × DeltaMap) :
    Option (Nat × Int) × Nat :=
  let mc := maxCounts e.2
  if st.2 < mc then (some (e.1, maxKeyByCount e.2), mc) else st

/-- The inner posting loop of one query item. -/
def postingFold (q : String × Int) (vs : List (Int × Nat)) (m : Matches) : Matches :=
  vs.foldl (fun m p => bumpDelta m p.2 (p.1 - q.2)) m

/-- The whole per-batch accumulation loop over the query items. -/
def batchFold (hm : List (String × List (Int × Nat))) (batch : List (String × Int))
    (m : Matches) : Matches :=
  batch.foldl (fun m q => postingFold q ((alistGet? q.1 hm).getD []) m) m

/-- Invariant of the `matches` accumulator: every entry is keyed by a
`song_id` occurring in `rows` and holds a non-empty histogram of positive
counts. -/
def accInv (rows : List FpRow) (m : Matches) : Prop :=
  ∀ e ∈ m, (∃ r ∈ rows, e.1 = r.song_id) ∧ e.2 ≠ [] ∧ ∀ c ∈ e.2, 1 ≤ c.2

/-! # Theorems -/

/-! ## C3 — query subsampling -/

theorem everyNthAux_getElem? {α : Type} (s : Nat) (hs : 1 ≤ s) :
    ∀ (k fuel : Nat) (l : List α), l.length ≤ fuel →
      (everyNthAux s fuel l)[k]? = l[k * s]? := by
  intro k
  induction k with
  | zero =>
    intro fuel l hlen
    match fuel, l with
    | 0, l =>
      have : l = [] := List.length_eq_zero.mp (Nat.le_zero.mp hlen)
      subst this
      rfl
    | fuel + 1, [] => rfl
    | fuel + 1, x :: xs => simp [everyNthAux]
  | succ k ih =>
    intro fuel l hlen
    match fuel, l with
    | 0, l =>
      have : l = [] := List.length_eq_zero.mp (Nat.le_zero.mp hlen)
      subst this
      rfl
    | fuel + 1, [] => rfl
    | fuel + 1, x :: xs =>
      have hdrop : (xs.drop (s - 1)).length ≤ fuel := by
        simp only [List.length_drop]
        simp only [List.length_cons] at hlen
        omega
      have harith : s - 1 + k * s + 1 = (k + 1) * s := by
        cases s with
        | zero => omega
        | succ t => ring_nf; omega
      calc (everyNthAux s (fuel + 1) (x :: xs))[k + 1]?
          = (everyNthAux s fuel (xs.drop (s - 1)))[k]? := by simp [everyNthAux]
        _ = (xs.drop (s - 1))[k * s]? := ih fuel _ hdrop
        _ = xs[s - 1 + k * s]? := List.getElem?_drop ..
        _ = (x :: xs)[s - 1 + k * s + 1]? := (List.getElem?_cons_succ).symm
        _ = (x :: xs)[(k + 1) * s]? := by rw [harith]

theorem everyNth_getElem? {α : Type} (s : Nat) (hs : 1 ≤ s) (k : Nat) (l : List α) :
    (everyNth s l)[k]? = l[k * s]? :=
  everyNthAux_getElem? s hs k l.length l (Nat.le_refl _)

/-- C3.  For a query of length `M > 400` the subsampling step of
`find_matches` retains exactly the elements at indices `0, s, 2·s, …` with
stride `s = ⌊M / 400⌋`, truncated to at most 400 elements; a query of length
`M ≤ 400` is retained whole. -/
theorem sampleQuery_spec {α : Type} (q : List α) :
    (q.length ≤ 400 → sampleQuery q = q) ∧
    (400 < q.length →
      ∀ k : Nat,
        (sampleQuery q)[k]? = if k < 400 then q[k * (q.length / 400)]? else none) := by
  constructor
  · intro hle
    unfold sampleQuery MAX_QUERY_FINGERPRINTS
    rw [if_neg (by omega)]
  · intro hgt k
    have hs : 1 ≤ q.length / 400 := (Nat.one_le_div_iff (by omega)).mpr (by omega)
    unfold sampleQuery MAX_QUERY_FINGERPRINTS
    rw [if_pos (by omega)]
    by_cases hk : k < 400
    · rw [if_pos hk, List.getElem?_take_of_lt hk, everyNth_getElem? _ hs]
    · rw [if_neg hk]
      exact List.getElem?_eq_none (le_trans (List.length_take_le ..) (by omega))

/-- Witness for C3: on a concrete 401-element query the stride is
`401 / 400 = 1` and element `k = 5` of the sample is the query's element
`5 · 1 = 5`. -/
theorem sampleQuery_spec_witness :
    (sampleQuery (List.range 401))[5]? = some 5 := by
  have h := (sampleQuery_spec (List.range 401)).2 (by simp) 5
  simpa using h

/-! ## C8 — the stats cache attributes are read before assignment -/

/-- C8.  `DatabaseManager.__init__` assigns none of `_stats_cache`,
`_stats_cache_time`, `_cache_duration`; the first statement of
`get_database_stats` reads `self._stats_cache`, so the first call after
construction raises `AttributeError` instead of computing statistics —
whatever the store contents and the current time are. -/
theorem get_database_stats_first_call_raises (db : DBState) (now : ℚ) :
    get_database_stats managerInit db now = .error "AttributeError: _stats_cache" := rfl

/-! ## C9 — the confidence threshold is redundant -/

/-- C9.  `confidence_pct = min(100, (best_score/100)·100)` equals
`min(100, best_score)`, it is below `MIN_CONFIDENCE_PERCENTAGE = 5` exactly
when `best_score < MIN_MATCHING_FINGERPRINTS = 5`, and the two sequential
threshold checks of `find_matches` accept exactly when `5 ≤ best_score`. -/
theorem confidence_threshold_redundant (n : Nat) :
    confidencePct n = min 100 (n : ℚ) ∧
    (confidencePct n < MIN_CONFIDENCE_PERCENTAGE ↔ n < MIN_MATCHING_FINGERPRINTS) ∧
    ((¬ n < MIN_MATCHING_FINGERPRINTS ∧
        ¬ confidencePct n < MIN_CONFIDENCE_PERCENTAGE) ↔ 5 ≤ n) := by
  have hpct : confidencePct n = min 100 (n : ℚ) := by
    unfold confidencePct
    norm_num
  have hmin : MIN_MATCHING_FINGERPRINTS = 5 := by
    unfold MIN_MATCHING_FINGERPRINTS EXPECTED_GOOD_MATCH MIN_MATCH_PERCENTAGE
    norm_num
    rfl
  have hconf : MIN_CONFIDENCE_PERCENTAGE = 5 := by
    unfold MIN_CONFIDENCE_PERCENTAGE MIN_MATCH_PERCENTAGE
    norm_num
  have hlt : confidencePct n < MIN_CONFIDENCE_PERCENTAGE ↔ n < 5 := by
    rw [hpct, hconf, min_lt_iff]
    constructor
    · rintro (h | h)
      · norm_num at h
      · exact_mod_cast (by exact_mod_cast h : (n : ℚ) < 5)
    · intro h
      right
      exact_mod_cast h
  refine ⟨hpct, ?_, ?_⟩
  · rw [hlt, hmin]
  · rw [hlt, hmin]
    omega

/-! ## C4 — the hasher's target zone bounds the index gap, not the time delta -/


theorem pairsFrom_cons (peaks : List (Int × Int)) (i j : Nat) (js : List Nat) :
    pairsFrom peaks i (j :: js) =
      emittedPair peaks i j :: (if fan_value ≤ j - i then [] else pairsFrom peaks i js) := rfl

theorem pairsFrom_eq_emittedPair (peaks : List (Int × Int)) (i : Nat) :
    ∀ (n s : Nat), i < s →
      ∀ e ∈ pairsFrom peaks i (List.range' s n),
        ∃ j, s ≤ j ∧ j < s + n ∧ j ≤ max s (i + fan_value) ∧ e = emittedPair peaks i j := by
  intro n
  induction n with
  | zero => intro s _ e he; simp [pairsFrom] at he
  | succ n ih =>
    intro s hs e he
    rw [List.range'_succ, pairsFrom_cons, List.mem_cons] at he
    rcases he with he | he
    · exact ⟨s, Nat.le_refl s, by omega, Nat.le_max_left .., he⟩
    · by_cases hbrk : fan_value ≤ s - i
      · rw [if_pos hbrk] at he
        simp at he
      · rw [if_neg hbrk] at he
        obtain ⟨j, hj1, hj2, hj3, hj4⟩ := ih (s + 1) (by omega) e he
        refine ⟨j, by omega, by omega, ?_, hj4⟩
        have hmax : max (s + 1) (i + fan_value) = i + fan_value := by
          apply Nat.max_eq_right
          omega
        rw [hmax] at hj3
        exact le_trans hj3 (Nat.le_max_right ..)

theorem pairsFrom_length_le (peaks : List (Int × Int)) (i : Nat) :
    ∀ (n s : Nat), i < s → s ≤ i + fan_value →
      (pairsFrom peaks i (List.range' s n)).length ≤ i + 1 + fan_value - s := by
  intro n
  induction n with
  | zero => intro s _ _; simp [pairsFrom]
  | succ n ih =>
    intro s hs hle
    rw [List.range'_succ, pairsFrom_cons, List.length_cons]
    by_cases hbrk : fan_value ≤ s - i
    · rw [if_pos hbrk]
      simp only [List.length_nil]
      omega
    · rw [if_neg hbrk]
      have := ih (s + 1) (by omega) (by omega)
      omega

/-- C4, counterexample.  On the landmark list `[(0, 1), (1000, 2)]` the
hasher emits the tuple with `Δt = t_1 − t_0 = 1000`, which exceeds the
target-zone width `τ_w = 75`: the loop bound clamps the partner's *index*
distance, not the frame-time delta, so "`Δt` never exceeds `τ_w` frames" is
false. -/
theorem generate_hashes_delta_unbounded :
    ((1, 2, 1000), 0) ∈ generatePairs [(0, 1), (1000, 2)] ∧
      ¬ ((1000 : Int) ≤ (target_zone_width : Int)) ∧
      generate_hashes [(0, 1), (1000, 2)] = [("1|2|1000", 0)] := by
  refine ⟨?_, by decide, by decide⟩
  decide

/-- C4, amended.  Every tuple emitted by `generate_hashes` pairs an
anchor `i` with a partner `j` in the window
`i + τ₀ ≤ j < min(i + τ_w, len)` with moreover `j ≤ i + F`, it carries the
anchor's time `t_i` and the delta `Δt = t_j − t_i`, and each anchor produces
at most `F = 5` pairings.  The *index* gap `j − i` is what the target zone
and the fan bound clamp; `Δt` itself is unbounded. -/
theorem generatePairs_window (peaks : List (Int × Int)) :
    (∀ e ∈ generatePairs peaks, ∃ i j : Nat,
        i < peaks.length ∧
        i + target_zone_start ≤ j ∧ j < min (i + target_zone_width) peaks.length ∧
        j ≤ i + fan_value ∧
        e = emittedPair peaks i j) ∧
    (∀ i : Nat, (pairsFrom peaks i (targetZone i peaks.length)).length ≤ fan_value) := by
  constructor
  · intro e he
    rw [generatePairs, List.mem_flatMap] at he
    obtain ⟨i, hi, he⟩ := he
    rw [List.mem_range] at hi
    rw [targetZone] at he
    obtain ⟨j, hj1, hj2, hj3, hj4⟩ :=
      pairsFrom_eq_emittedPair peaks i _ (i + target_zone_start)
        (by unfold target_zone_start; omega) e he
    refine ⟨i, j, hi, hj1, ?_, ?_, hj4⟩
    · omega
    · have : max (i + target_zone_start) (i + fan_value) = i + fan_value := by
        apply Nat.max_eq_right
        unfold target_zone_start fan_value
        omega
      omega
  · intro i
    rw [targetZone]
    have h := pairsFrom_length_le peaks i
      (min (i + target_zone_width) peaks.length - (i + target_zone_start))
      (i + target_zone_start)
      (by unfold target_zone_start; omega)
      (by unfold target_zone_start fan_value; omega)
    unfold target_zone_start fan_value at h ⊢
    omega

/-- Witness for the amended C4 at the counterexample input: the tuple with
`Δt = 1000` does come from the index window (`i = 0`, `j = 1`). -/
theorem generatePairs_window_witness :
    ∃ i j : Nat,
      i < ([((0 : Int), (1 : Int)), (1000, 2)] : List (Int × Int)).length ∧
      i + target_zone_start ≤ j ∧
      j < min (i + target_zone_width) ([((0 : Int), (1 : Int)), (1000, 2)] : List (Int × Int)).length ∧
      j ≤ i + fan_value ∧
      (((1 : Int), (2 : Int), (1000 : Int)), (0 : Int)) =
        emittedPair [((0 : Int), (1 : Int)), (1000, 2)] i j :=
  (generatePairs_window [(0, 1), (1000, 2)]).1 ((1, 2, 1000), 0) (by decide)

/-! ## C7 — duplicate ingest by content digest -/

/-- C7.  With an existing file at `p` (contents `c`):
(a) if the store already holds a (necessarily unique — `file_hash` is
`UNIQUE`) recording with digest `sha256hex c`, `add_song` returns that
recording's id and the store is unchanged — no new recording row and no new
fingerprint rows;
(b) if the digest is fresh, ingesting the byte-identical file twice inserts
once: the second call returns the first call's id, leaves the store exactly
as the first call left it, and exactly one recording with that digest
exists. -/
theorem add_song_duplicate_content
    (db : DBState) (title artist title2 artist2 : String)
    (fps fps2 : List (String × Int)) (album album2 : Option String)
    (dur dur2 : Option ℚ) (p c : String) (fs : String → Option String)
    (hp : p ≠ "") (hfs : fs p = some c) :
    (∀ s ∈ db.songs, s.file_hash = some (sha256hex c) →
      (∀ s2 ∈ db.songs, s2.file_hash = some (sha256hex c) → s2 = s) →
      add_song db title artist fps album dur (some p) fs = .ok (db, s.id)) ∧
    ((∀ s ∈ db.songs, s.file_hash ≠ some (sha256hex c)) →
      ∃ db1 : DBState,
        add_song db title artist fps album dur (some p) fs = .ok (db1, db.nextId) ∧
        add_song db1 title2 artist2 fps2 album2 dur2 (some p) fs = .ok (db1, db.nextId) ∧
        (db1.songs.filter fun s => s.file_hash = some (sha256hex c)).length = 1 ∧
        db1.songs = db.songs ++ [⟨db.nextId, title, artist, album, dur, some (sha256hex c)⟩] ∧
        db1.fingerprints =
          db.fingerprints ++ fps.map fun q => FpRow.mk q.1 q.2 db.nextId) := by
  have htruthy : truthyPath (some p) = true := by
    simp [truthyPath, hp]
  have hdig : generate_file_hash fs (some p) = some (sha256hex c) := by
    simp [generate_file_hash, hp, hfs]
  constructor
  · intro s hs hdigest huniq
    have hfind : db.songs.find? (fun s0 => s0.file_hash = some (sha256hex c)) = some s := by
      have hex : ∃ s0 ∈ db.songs, (fun s0 : SongRow =>
          decide (s0.file_hash = some (sha256hex c))) s0 = true := by
        exact ⟨s, hs, by simp [hdigest]⟩
      obtain ⟨x, hx⟩ := Option.isSome_iff_exists.mp (List.find?_isSome.mpr hex)
      have hxmem := List.mem_of_find?_eq_some hx
      have hxpred := List.find?_some hx
      simp only [decide_eq_true_eq] at hxpred
      rw [hx, huniq x hxmem hxpred]
    unfold add_song
    rw [htruthy]
    simp only [if_true, hdig, hfind]
  · intro hfresh
    have hfind : db.songs.find? (fun s0 => s0.file_hash = some (sha256hex c)) = none := by
      apply List.find?_eq_none.mpr
      intro x hx
      simp [hfresh x hx]
    have hany : (db.songs.any fun s0 => s0.file_hash = some (sha256hex c)) = false := by
      apply List.any_eq_false.mpr
      intro x hx
      simp [hfresh x hx]
    refine ⟨⟨db.songs ++ [⟨db.nextId, title, artist, album, dur, some (sha256hex c)⟩],
            db.fingerprints ++ fps.map fun q => FpRow.mk q.1 q.2 db.nextId,
            db.nextId + 1⟩, ?_, ?_, ?_, rfl, rfl⟩
    · unfold add_song
      rw [htruthy]
      simp only [if_true, hdig, hfind, hany]
      rfl
    · have hfind1 :
          (db.songs ++ [SongRow.mk db.nextId title artist album dur (some (sha256hex c))]).find?
              (fun s0 : SongRow => s0.file_hash = some (sha256hex c))
            = some (SongRow.mk db.nextId title artist album dur (some (sha256hex c))) := by
        rw [List.find?_append, hfind]
        simp [List.find?]
      unfold add_song
      rw [htruthy]
      simp only [if_true, hdig, hfind1]
    · rw [List.filter_append]
      have hl : db.songs.filter (fun s => s.file_hash = some (sha256hex c)) = [] := by
        apply List.filter_eq_nil_iff.mpr
        intro x hx
        simp [hfresh x hx]
      rw [hl]
      simp [List.filter]

/-- Witness for C7: a concrete double ingest of the same one-byte file into
an empty store inserts once and returns id 1 twice. -/
theorem add_song_duplicate_content_witness :
    ∃ db1 : DBState,
      add_song ⟨[], [], 1⟩ "t" "a" [("h", 3)] none none (some "f.mp3")
          (fun p => if p = "f.mp3" then some "B" else none) = .ok (db1, 1) ∧
      add_song db1 "t2" "a2" [("h", 4)] none none (some "f.mp3")
          (fun p => if p = "f.mp3" then some "B" else none) = .ok (db1, 1) ∧
      (db1.songs.filter fun s => s.file_hash = some (sha256hex "B")).length = 1 ∧
      db1.songs = [] ++ [⟨1, "t", "a", none, none, some (sha256hex "B")⟩] ∧
      db1.fingerprints = [] ++ [FpRow.mk "h" 3 1] :=
  (add_song_duplicate_content ⟨[], [], 1⟩ "t" "a" "t2" "a2" [("h", 3)] [("h", 4)]
      none none none none "f.mp3" "B"
      (fun p => if p = "f.mp3" then some "B" else none)
      (by decide) (by simp)).2 (by simp)

/-! ## C10 — ingest without a usable file path -/

/-- C10, counterexample.  With `filepath = None` (or a path that does
not exist) the digest is `None` and the duplicate check is skipped, but the
claimed unconditional insert does *not* happen: `songs.file_hash` is declared
`NOT NULL` in `models.py` (and the tables are created from that model), so
the flush fails and `add_song` raises instead of inserting. -/
theorem add_song_no_digest_raises :
    add_song ⟨[], [], 1⟩ "t" "a" [("h", 3)] none none none (fun _ => none)
        = .error "IntegrityError: null value in column file_hash violates not-null constraint" ∧
    add_song ⟨[], [], 1⟩ "t" "a" [("h", 3)] none none (some "missing.mp3") (fun _ => none)
        = .error "IntegrityError: null value in column file_hash violates not-null constraint" :=
  ⟨rfl, rfl⟩

/-- C10, amended.  When `add_song` is called with `filepath = None`,
`filepath = ""` or a path that does not exist, the content digest is `None`
and the duplicate-content check is skipped entirely (the outcome does not
depend on the store contents at all); the code then attempts the insert
unconditionally, which violates the `NOT NULL` constraint on
`songs.file_hash`, so `add_song` raises and nothing is inserted.  Duplicate
detection happens only when an existing, non-empty file path is supplied. -/
theorem add_song_missing_file (db : DBState) (title artist : String)
    (fps : List (String × Int)) (album : Option String) (dur : Option ℚ)
    (fs : String → Option String) :
    add_song db title artist fps album dur none fs
        = .error "IntegrityError: null value in column file_hash violates not-null constraint" ∧
    (∀ p : String, fs p = none →
      add_song db title artist fps album dur (some p) fs
        = .error "IntegrityError: null value in column file_hash violates not-null constraint") := by
  constructor
  · rfl
  · intro p hp
    unfold add_song truthyPath generate_file_hash
    by_cases he : p = "" <;> simp [he, hp]

/-- Witness for the amended C10 at a concrete missing path. -/
theorem add_song_missing_file_witness :
    add_song ⟨[], [], 1⟩ "t" "a" [("h", 3)] none none (some "x.mp3") (fun _ => none)
      = .error "IntegrityError: null value in column file_hash violates not-null constraint" :=
  (add_song_missing_file ⟨[], [], 1⟩ "t" "a" [("h", 3)] none none (fun _ => none)).2
    "x.mp3" rfl

/-! ## C5 / C6 — order and tie behaviour of the peak picker -/


theorem insertByTime_cons (x y : Nat × Nat) (ys : List (Nat × Nat)) :
    insertByTime x (y :: ys) =
      if x.1 < y.1 then x :: y :: ys else y :: insertByTime x ys := rfl

theorem mem_insertByTime (x z : Nat × Nat) :
    ∀ l, z ∈ insertByTime x l ↔ z = x ∨ z ∈ l := by
  intro l
  induction l with
  | nil => simp [insertByTime]
  | cons y ys ih =>
    rw [insertByTime_cons]
    by_cases h : x.1 < y.1
    · rw [if_pos h]
      simp
    · rw [if_neg h]
      simp only [List.mem_cons, ih]
      tauto

theorem pairwise_insertByTime (x : Nat × Nat) :
    ∀ l, List.Pairwise lexLt l → (∀ y ∈ l, y.1 = x.1 → y.2 < x.2) →
      List.Pairwise lexLt (insertByTime x l) := by
  intro l
  induction l with
  | nil =>
    intro _ _
    simp [insertByTime]
  | cons y ys ih =>
    intro hp hk
    rw [List.pairwise_cons] at hp
    obtain ⟨hy, hys⟩ := hp
    rw [insertByTime_cons]
    by_cases h : x.1 < y.1
    · rw [if_pos h, List.pairwise_cons]
      refine ⟨?_, List.pairwise_cons.mpr ⟨hy, hys⟩⟩
      intro z hz
      rcases List.mem_cons.mp hz with rfl | hz
      · exact Or.inl h
      · rcases hy z hz with h2 | ⟨h2, _⟩
        · exact Or.inl (lt_trans h h2)
        · exact Or.inl (h2 ▸ h)
    · rw [if_neg h, List.pairwise_cons]
      constructor
      · intro z hz
        rcases (mem_insertByTime x z ys).mp hz with rfl | hz
        · rcases Nat.lt_or_ge y.1 z.1 with h2 | h2
          · exact Or.inl h2
          · have he : y.1 = z.1 := Nat.le_antisymm (Nat.not_lt.mp h) h2
            exact Or.inr ⟨he, hk y (List.mem_cons_self ..) he⟩
        · exact hy z hz
      · exact ih hys fun z hz he => hk z (List.mem_cons_of_mem _ hz) he

theorem pairwise_foldl_insertByTime :
    ∀ (rest acc : List (Nat × Nat)),
      List.Pairwise lexLt acc →
      List.Pairwise (fun a b => a.1 = b.1 → a.2 < b.2) rest →
      (∀ x ∈ rest, ∀ y ∈ acc, y.1 = x.1 → y.2 < x.2) →
      List.Pairwise lexLt (rest.foldl (fun a x => insertByTime x a) acc) := by
  intro rest
  induction rest with
  | nil =>
    intro acc h _ _
    simpa using h
  | cons x rest ih =>
    intro acc hacc hrest hcross
    rw [List.pairwise_cons] at hrest
    obtain ⟨hx, hrest⟩ := hrest
    simp only [List.foldl_cons]
    apply ih (insertByTime x acc)
    · exact pairwise_insertByTime x acc hacc fun y hy => hcross x (List.mem_cons_self ..) y hy
    · exact hrest
    · intro z hz y hy he
      rcases (mem_insertByTime x y acc).mp hy with rfl | hy
      · exact hx z hz he
      · exact hcross z (List.mem_cons_of_mem _ hz) y hy he

theorem mem_peakRow (S : List (List ℚ)) (θ : ℚ) (r : Nat) (x : Nat × Nat) :
    x ∈ peakRow S θ r ↔
      ∃ c, c < (S.headD []).length ∧ landmarkB S θ r c = true ∧ x = (c, r) := by
  unfold peakRow
  rw [List.mem_filterMap]
  constructor
  · rintro ⟨c, hc, hx⟩
    rw [List.mem_range] at hc
    by_cases hb : landmarkB S θ r c
    · rw [if_pos hb] at hx
      exact ⟨c, hc, hb, (Option.some_inj.mp hx).symm⟩
    · rw [if_neg hb] at hx
      cases hx
  · rintro ⟨c, hc, hb, rfl⟩
    exact ⟨c, List.mem_range.mpr hc, by rw [if_pos hb]⟩

theorem snd_of_mem_peakRow {S : List (List ℚ)} {θ : ℚ} {r : Nat} {x : Nat × Nat}
    (hx : x ∈ peakRow S θ r) : x.2 = r := by
  obtain ⟨c, _, _, rfl⟩ := (mem_peakRow S θ r x).mp hx
  rfl

theorem pairwise_keyLt_unsortedPeaks (S : List (List ℚ)) :
    List.Pairwise (fun a b => a.1 = b.1 → a.2 < b.2) (unsortedPeaks S) := by
  unfold unsortedPeaks
  rw [List.pairwise_flatMap]
  constructor
  · intro r _
    unfold peakRow
    apply List.Pairwise.filterMap _ ?_ (List.pairwise_lt_range _)
    intro c c' hlt b hb b' hb'
    simp only [Option.mem_def] at hb hb'
    by_cases h1 : landmarkB S (percentile90 S) r c
    · rw [if_pos h1] at hb
      by_cases h2 : landmarkB S (percentile90 S) r c'
      · rw [if_pos h2] at hb'
        cases hb
        cases hb'
        intro he
        exact absurd he (Nat.ne_of_lt hlt)
      · rw [if_neg h2] at hb'
        cases hb'
    · rw [if_neg h1] at hb
      cases hb
  · apply List.Pairwise.imp ?_ (List.pairwise_lt_range _)
    intro r1 r2 hlt x hx y hy
    intro _
    rw [snd_of_mem_peakRow hx, snd_of_mem_peakRow hy]
    exact hlt

/-- C5.  For every spectrogram, the landmark list returned by
`find_peaks` is strictly sorted in the time-then-frequency lexicographic
order: times ascend, and landmarks with equal time are ordered by ascending
frequency.  (This combines the final stable `sort(key=λx: x[0])` with the
frequency-major order in which `np.where` enumerates the true cells.) -/
theorem find_peaks_sorted (S : List (List ℚ)) :
    List.Pairwise lexLt (find_peaks S) := by
  unfold find_peaks sortByTime
  apply pairwise_foldl_insertByTime (unsortedPeaks S) []
  · exact List.Pairwise.nil
  · exact pairwise_keyLt_unsortedPeaks S
  · intro x _ y hy
    cases hy

theorem mem_foldl_insertByTime :
    ∀ (rest acc : List (Nat × Nat)) (z : Nat × Nat),
      z ∈ rest.foldl (fun a x => insertByTime x a) acc ↔ z ∈ acc ∨ z ∈ rest := by
  intro rest
  induction rest with
  | nil => intro acc z; simp
  | cons x rest ih =>
    intro acc z
    simp only [List.foldl_cons, ih, mem_insertByTime, List.mem_cons]
    tauto

/-- Membership characterisation of `find_peaks`: exactly the off-border
cells that equal their `maximum_filter` neighbourhood value and reach the
percentile threshold, as `(t, f)` pairs. -/
theorem mem_find_peaks (S : List (List ℚ)) (x : Nat × Nat) :
    x ∈ find_peaks S ↔
      ∃ r, r < S.length ∧ ∃ c, c < (S.headD []).length ∧
        landmarkB S (percentile90 S) r c = true ∧ x = (c, r) := by
  unfold find_peaks sortByTime
  rw [mem_foldl_insertByTime]
  simp only [List.mem_nil_iff, false_or]
  unfold unsortedPeaks
  rw [List.mem_flatMap]
  constructor
  · rintro ⟨r, hr, hx⟩
    rw [List.mem_range] at hr
    obtain ⟨c, hc, hb, rfl⟩ := (mem_peakRow S _ r x).mp hx
    exact ⟨r, hr, c, hc, hb, rfl⟩
  · rintro ⟨r, hr, c, hc, hb, rfl⟩
    exact ⟨r, List.mem_range.mpr hr, (mem_peakRow S _ r _).mpr ⟨c, hc, hb, rfl⟩⟩

set_option maxRecDepth 100000

unseal Rat.add Rat.mul Rat.inv Rat.sub in
/-- C6, counterexample.  In the spectrogram `S0`, the two adjacent cells
`(t, f) = (5, 5)` and `(6, 5)` lie in one peak neighbourhood, share the same
maximal value `10` (each equals its `maximum_filter` value), are at or above
the adaptive threshold and off the border — yet `find_peaks` emits **both**
of them, not just the lexicographically lowest: `spectrogram == local_max`
marks every cell that ties its neighbourhood maximum. -/
theorem find_peaks_tie_emits_both :
    cell S0 5 5 = localMax S0 5 5 ∧ cell S0 5 6 = localMax S0 5 6 ∧
    cell S0 5 5 = cell S0 5 6 ∧ cell S0 5 5 = 10 ∧
    percentile90 S0 ≤ cell S0 5 5 ∧
    (5, 5) ∈ find_peaks S0 ∧ (6, 5) ∈ find_peaks S0 := by
  refine ⟨by decide, by decide, by decide, by decide, by decide, ?_, ?_⟩
  · exact (mem_find_peaks S0 (5, 5)).mpr ⟨5, by decide, 5, by decide, by decide, rfl⟩
  · exact (mem_find_peaks S0 (6, 5)).mpr ⟨5, by decide, 6, by decide, by decide, rfl⟩

/-- C6, amended.  A cell `(t, f)` of the spectrogram is emitted by
`find_peaks` **iff** it equals its neighbourhood (`maximum_filter`) value, is
not in the first/last row or column, and is at or above the percentile
threshold.  In particular, when several cells within one neighbourhood share
the same maximal value, *every* one of them is emitted as a landmark — not
exactly one, and not only the lexicographically lowest `(t, f)`. -/
theorem find_peaks_tie_characterisation (S : List (List ℚ)) (t f : Nat)
    (hf : f < S.length) (ht : t < (S.headD []).length) :
    (t, f) ∈ find_peaks S ↔
      (cell S f t = localMax S f t ∧ f ≠ 0 ∧ f ≠ S.length - 1 ∧ t ≠ 0 ∧
        t ≠ (S.headD []).length - 1 ∧ percentile90 S ≤ cell S f t) := by
  rw [mem_find_peaks]
  constructor
  · rintro ⟨r, hr, c, hc, hb, hx⟩
    injection hx with h1 h2
    subst h1
    subst h2
    unfold landmarkB at hb
    simp only [Bool.and_eq_true, beq_iff_eq, Bool.not_eq_eq_eq_not, Bool.not_true,
      beq_eq_false_iff_ne, ne_eq, decide_eq_true_eq] at hb
    tauto
  · rintro ⟨h1, h2, h3, h4, h5, h6⟩
    refine ⟨f, hf, t, ht, ?_, rfl⟩
    unfold landmarkB
    simp only [Bool.and_eq_true, beq_iff_eq, Bool.not_eq_eq_eq_not, Bool.not_true,
      beq_eq_false_iff_ne, ne_eq, decide_eq_true_eq]
    tauto

unseal Rat.add Rat.mul Rat.inv Rat.sub in
/-- Witness for the amended C6 at the concrete tie: both tied cells satisfy
the characterisation, so both are landmarks. -/
theorem find_peaks_tie_characterisation_witness :
    (5, 5) ∈ find_peaks S0 ∧ (6, 5) ∈ find_peaks S0 :=
  ⟨(find_peaks_tie_characterisation S0 5 5 (by decide) (by decide)).mpr
      ⟨by decide, by decide, by decide, by decide, by decide, by decide⟩,
   (find_peaks_tie_characterisation S0 6 5 (by decide) (by decide)).mpr
      ⟨by decide, by decide, by decide, by decide, by decide, by decide⟩⟩

/-! ## C2 — tie-breaking in the ranking step

`alignment = max(time_deltas, key=time_deltas.get)` keeps the *first* key in
dict-iteration order on ties, and the `if max_count > best_score` loop keeps
the *first* recording in dict-iteration order on ties; dict iteration order
is insertion order, not numeric order. -/

theorem foldl_max_init_le : ∀ (dm : DeltaMap) (a : Nat),
    a ≤ dm.foldl (fun acc e => max acc e.2) a := by
  intro dm
  induction dm with
  | nil => intro a; exact Nat.le_refl a
  | cons c dm ih =>
    intro a
    exact le_trans (Nat.le_max_left a c.2) (ih (max a c.2))

theorem foldl_max_mem_le : ∀ (dm : DeltaMap) (a : Nat), ∀ c ∈ dm,
    c.2 ≤ dm.foldl (fun acc e => max acc e.2) a := by
  intro dm
  induction dm with
  | nil => intro a c hc; cases hc
  | cons d dm ih =>
    intro a c hc
    rcases List.mem_cons.mp hc with rfl | hc
    · exact le_trans (Nat.le_max_right a c.2) (foldl_max_init_le dm _)
    · exact ih (max a d.2) c hc

theorem foldl_max_le : ∀ (dm : DeltaMap) (a n : Nat), a ≤ n → (∀ c ∈ dm, c.2 ≤ n) →
    dm.foldl (fun acc e => max acc e.2) a ≤ n := by
  intro dm
  induction dm with
  | nil => intro a n h _; exact h
  | cons d dm ih =>
    intro a n ha hall
    exact ih (max a d.2) n
      (Nat.max_le.mpr ⟨ha, hall d (List.mem_cons_self ..)⟩)
      fun c hc => hall c (List.mem_cons_of_mem _ hc)

theorem le_maxCounts_of_mem {dm : DeltaMap} {c : Int × Nat} (hc : c ∈ dm) :
    c.2 ≤ maxCounts dm := foldl_max_mem_le dm 0 c hc

theorem maxCounts_le {dm : DeltaMap} {n : Nat} (h : ∀ c ∈ dm, c.2 ≤ n) :
    maxCounts dm ≤ n := foldl_max_le dm 0 n (Nat.zero_le n) h


theorem maxKeyByCount_cons (b : Int × Nat) (rest : List (Int × Nat)) :
    maxKeyByCount (b :: rest) = (pickMax b rest).1 := rfl

theorem pickMax_init_le : ∀ (rest : List (Int × Nat)) (b : Int × Nat),
    b.2 ≤ (pickMax b rest).2 := by
  intro rest
  induction rest with
  | nil => intro b; exact Nat.le_refl _
  | cons p rest ih =>
    intro b
    unfold pickMax
    rw [List.foldl_cons]
    by_cases h : b.2 < p.2
    · rw [if_pos h]
      exact le_trans (Nat.le_of_lt h) (ih p)
    · rw [if_neg h]
      exact ih b

theorem pickMax_cons (b p : Int × Nat) (rest : List (Int × Nat)) :
    pickMax b (p :: rest) = pickMax (if b.2 < p.2 then p else b) rest := by
  unfold pickMax
  rw [List.foldl_cons]

theorem pickMax_split : ∀ (rest : List (Int × Nat)) (b : Int × Nat),
    ∃ pre post,
      b :: rest = pre ++ pickMax b rest :: post ∧
      (∀ p ∈ pre, p.2 < (pickMax b rest).2) ∧
      (∀ p ∈ post, p.2 ≤ (pickMax b rest).2) := by
  intro rest
  induction rest with
  | nil =>
    intro b
    refine ⟨[], [], rfl, ?_, ?_⟩ <;> · intro p hp; cases hp
  | cons p rest ih =>
    intro b
    by_cases h : b.2 < p.2
    · rw [pickMax_cons, if_pos h]
      obtain ⟨pre, post, heq, hpre, hpost⟩ := ih p
      refine ⟨b :: pre, post, ?_, ?_, hpost⟩
      · rw [List.cons_append, ← heq]
      · intro x hx
        rcases List.mem_cons.mp hx with rfl | hx
        · exact lt_of_lt_of_le h (pickMax_init_le rest p)
        · exact hpre x hx
    · rw [pickMax_cons, if_neg h]
      obtain ⟨pre, post, heq, hpre, hpost⟩ := ih b
      match pre, heq with
      | [], heq =>
        rw [List.nil_append] at heq
        have hb : b = pickMax b rest := (List.cons.injEq .. ▸ heq).1
        have hrest : rest = post := (List.cons.injEq .. ▸ heq).2
        refine ⟨[], p :: rest, ?_, ?_, ?_⟩
        · rw [List.nil_append, ← hb]
        · intro x hx; cases hx
        · intro x hx
          rcases List.mem_cons.mp hx with rfl | hx
          · rw [← hb]; exact Nat.not_lt.mp h
          · exact hpost x (hrest ▸ hx)
      | q :: pre2, heq =>
        rw [List.cons_append] at heq
        have hq : q = b := ((List.cons.injEq .. ▸ heq).1).symm
        have hrest : rest = pre2 ++ pickMax b rest :: post := (List.cons.injEq .. ▸ heq).2
        have hblt : b.2 < (pickMax b rest).2 := hq ▸ hpre q (List.mem_cons_self ..)
        refine ⟨b :: p :: pre2, post, ?_, ?_, hpost⟩
        · rw [List.cons_append, List.cons_append, ← hrest]
        · intro x hx
          rcases List.mem_cons.mp hx with rfl | hx
          · exact hblt
          · rcases List.mem_cons.mp hx with rfl | hx
            · exact lt_of_le_of_lt (Nat.not_lt.mp h) hblt
            · exact hpre x (List.mem_cons_of_mem _ hx)


theorem rank_eq_foldl (m : Matches) : rank m = m.foldl rankStep (none, 0) := rfl

theorem rank_foldl_split : ∀ (rest : List (Nat × DeltaMap)) (st : Option (Nat × Int) × Nat),
    (rest.foldl rankStep st = st ∧ ∀ e ∈ rest, maxCounts e.2 ≤ st.2) ∨
    (∃ pre e post, rest = pre ++ e :: post ∧
      rest.foldl rankStep st = (some (e.1, maxKeyByCount e.2), maxCounts e.2) ∧
      st.2 < maxCounts e.2 ∧
      (∀ x ∈ pre, maxCounts x.2 < maxCounts e.2) ∧
      (∀ x ∈ post, maxCounts x.2 ≤ maxCounts e.2)) := by
  intro rest
  induction rest with
  | nil => intro st; exact Or.inl ⟨rfl, by intro e he; cases he⟩
  | cons x rest ih =>
    intro st
    rw [List.foldl_cons]
    by_cases h : st.2 < maxCounts x.2
    · have hstep : rankStep st x = (some (x.1, maxKeyByCount x.2), maxCounts x.2) := by
        unfold rankStep
        rw [if_pos h]
      rw [hstep]
      rcases ih (some (x.1, maxKeyByCount x.2), maxCounts x.2) with ⟨heq, hbound⟩ | hwin
      · refine Or.inr ⟨[], x, rest, rfl, heq, h, ?_, ?_⟩
        · intro y hy; cases hy
        · intro y hy
          exact hbound y hy
      · obtain ⟨pre, e, post, heq, hres, hlt, hpre, hpost⟩ := hwin
        refine Or.inr ⟨x :: pre, e, post, by rw [heq, List.cons_append], hres,
          lt_trans h hlt, ?_, hpost⟩
        intro y hy
        rcases List.mem_cons.mp hy with rfl | hy
        · exact hlt
        · exact hpre y hy
    · have hstep : rankStep st x = st := by
        unfold rankStep
        rw [if_neg h]
      rw [hstep]
      rcases ih st with ⟨heq, hbound⟩ | hwin
      · refine Or.inl ⟨heq, ?_⟩
        intro e he
        rcases List.mem_cons.mp he with rfl | he
        · exact Nat.not_lt.mp h
        · exact hbound e he
      · obtain ⟨pre, e, post, heq, hres, hlt, hpre, hpost⟩ := hwin
        refine Or.inr ⟨x :: pre, e, post, by rw [heq, List.cons_append], hres, hlt, ?_, hpost⟩
        intro y hy
        rcases List.mem_cons.mp hy with rfl | hy
        · exact lt_of_le_of_lt (Nat.not_lt.mp h) hlt
        · exact hpre y hy

unseal Rat.add Rat.mul Rat.inv Rat.sub in
/-- C2, counterexample.  Concrete store and query where recordings 1 and
2 tie at peak 5, and within recording 2 the deltas 10 and 5 tie at count 5.
The claim predicts the winner `(rid*, align) = (1, 3)` (smallest recording
id; and alignment 5, the smaller tied Δt, for recording 2).  The matcher
instead picks recording 2 with alignment 10 — the first-inserted recording
and its first-inserted Δt — and returns that match. -/
theorem rank_smallest_tie_break_refuted :
    accumulated dbC2.fingerprints qC2 = [(2, [(10, 5), (5, 5)]), (1, [(3, 5)])] ∧
    maxCounts [((10 : Int), 5), (5, 5)] = 5 ∧ maxCounts [((3 : Int), 5)] = 5 ∧
    (1 : Nat) < 2 ∧ (5 : Int) < 10 ∧
    rank (accumulated dbC2.fingerprints qC2) = (some (2, 10), 5) ∧
    find_matches dbC2 qC2 = some ⟨2, "two", "artB", none, 5, 10, 10, 5⟩ :=
  ⟨by decide, by decide, by decide, by decide, by decide, by decide, by decide⟩

/-- C2, amended.  For every accumulated counts map (non-empty, with the
positive counts accumulation produces): the ranking step selects the
**first-inserted** recording among those attaining the maximal peak, and
reports as alignment the **first-inserted** Δt among those attaining that
recording's maximal count — dict insertion order, not smallest-value order,
breaks both ties. -/
theorem rank_insertion_order_tie_break (m : Matches) (hne : m ≠ [])
    (hpos : ∀ e ∈ m, e.2 ≠ [] ∧ ∀ c ∈ e.2, 1 ≤ c.2) :
    ∃ pre e post dpre dc dpost,
      m = pre ++ e :: post ∧ e.2 = dpre ++ dc :: dpost ∧
      rank m = (some (e.1, dc.1), maxCounts e.2) ∧ dc.2 = maxCounts e.2 ∧
      (∀ x ∈ pre, maxCounts x.2 < maxCounts e.2) ∧
      (∀ x ∈ post, maxCounts x.2 ≤ maxCounts e.2) ∧
      (∀ d ∈ dpre, d.2 < dc.2) ∧ (∀ d ∈ dpost, d.2 ≤ dc.2) := by
  rw [rank_eq_foldl]
  rcases rank_foldl_split m (none, 0) with ⟨_, hbound⟩ | hwin
  · exfalso
    match m, hne with
    | e0 :: m', _ =>
      obtain ⟨hne0, hcnt⟩ := hpos e0 (List.mem_cons_self ..)
      match he0 : e0.2, hne0 with
      | c0 :: dm', _ =>
        have h1 : 1 ≤ c0.2 := hcnt c0 (by rw [he0]; exact List.mem_cons_self ..)
        have h2 : c0.2 ≤ maxCounts e0.2 := le_maxCounts_of_mem (by rw [he0]; exact List.mem_cons_self ..)
        have h3 := hbound e0 (List.mem_cons_self ..)
        omega
  · obtain ⟨pre, e, post, heq, hres, _, hpre, hpost⟩ := hwin
    have hemem : e ∈ m := by
      rw [heq]
      exact List.mem_append_right pre (List.mem_cons_self ..)
    obtain ⟨hene, _⟩ := hpos e hemem
    match hd : e.2, hene with
    | c0 :: dm', _ =>
      obtain ⟨dpre, dpost, hdeq, hdpre, hdpost⟩ := pickMax_split dm' c0
      refine ⟨pre, e, post, dpre, pickMax c0 dm', dpost, heq, by rw [hd]; exact hdeq,
        ?_, ?_, hpre, hpost, hdpre, hdpost⟩
      · rw [hres, hd, maxKeyByCount_cons]
      · apply Nat.le_antisymm
        · exact le_maxCounts_of_mem (by rw [hd, hdeq]; exact List.mem_append_right dpre (List.mem_cons_self ..))
        · apply maxCounts_le
          intro c hc
          rw [hd, hdeq] at hc
          rcases List.mem_append.mp hc with hc | hc
          · exact Nat.le_of_lt (hdpre c hc)
          · rcases List.mem_cons.mp hc with rfl | hc
            · exact Nat.le_refl _
            · exact hdpost c hc

/-- Witness for the amended C2 at the concrete counterexample counts map. -/
theorem rank_insertion_order_tie_break_witness :
    ∃ pre e post dpre dc dpost,
      ([(2, [(10, 5), (5, 5)]), (1, [(3, 5)])] : Matches) = pre ++ e :: post ∧
      e.2 = dpre ++ dc :: dpost ∧
      rank [(2, [(10, 5), (5, 5)]), (1, [(3, 5)])] = (some (e.1, dc.1), maxCounts e.2) ∧
      dc.2 = maxCounts e.2 ∧
      (∀ x ∈ pre, maxCounts x.2 < maxCounts e.2) ∧
      (∀ x ∈ post, maxCounts x.2 ≤ maxCounts e.2) ∧
      (∀ d ∈ dpre, d.2 < dc.2) ∧ (∀ d ∈ dpost, d.2 ≤ dc.2) :=
  rank_insertion_order_tie_break [(2, [(10, 5), (5, 5)]), (1, [(3, 5)])]
    (by decide) (by decide)

/-! ## C1 — when `find_matches` returns `None`

Plumbing lemmas about the accumulator `matches`: it stays empty exactly as
long as every batch lookup returns no postings, and every entry it ever holds
has a non-empty histogram of positive counts keyed by a `song_id` that occurs
in the `fingerprints` table. -/

theorem bumpDelta_ne_nil (m : Matches) (sid : Nat) (d : Int) :
    bumpDelta m sid d ≠ [] := by
  match m with
  | [] => simp [bumpDelta]
  | e :: rest =>
    unfold bumpDelta
    by_cases h : e.1 = sid <;> simp [h]



theorem postingFold_ne_nil (q : String × Int) :
    ∀ (vs : List (Int × Nat)) (m : Matches), (m ≠ [] ∨ vs ≠ []) →
      postingFold q vs m ≠ [] := by
  intro vs
  induction vs with
  | nil =>
    intro m hm
    rcases hm with hm | hm
    · exact hm
    · exact absurd rfl hm
  | cons v vs ih =>
    intro m _
    unfold postingFold
    rw [List.foldl_cons]
    exact ih (bumpDelta m v.2 (v.1 - q.2)) (Or.inl (bumpDelta_ne_nil _ _ _))

theorem accumulateBatch_eq (rows : List FpRow) (batch : List (String × Int)) (m : Matches) :
    accumulateBatch rows batch m =
      if (batch.map Prod.fst).isEmpty then m
      else batchFold (buildHashMap (batchRows rows batch)) batch m := rfl

theorem batchFold_ne_nil (hm : List (String × List (Int × Nat))) :
    ∀ (batch : List (String × Int)) (m : Matches), m ≠ [] →
      batchFold hm batch m ≠ [] := by
  intro batch
  induction batch with
  | nil => intro m hm0; exact hm0
  | cons q batch ih =>
    intro m hm0
    unfold batchFold
    rw [List.foldl_cons]
    exact ih _ (postingFold_ne_nil q _ m (Or.inl hm0))

theorem buildHashMap_nil : buildHashMap [] = [] := rfl

theorem alistGet?_hmAppend_self :
    ∀ (hm : List (String × List (Int × Nat))) (h : String) (v : Int × Nat),
      ∃ vs, alistGet? h (hmAppend hm h v) = some vs ∧ vs ≠ [] := by
  intro hm
  induction hm with
  | nil =>
    intro h v
    exact ⟨[v], by simp [hmAppend, alistGet?], by simp⟩
  | cons e rest ih =>
    intro h v
    by_cases he : e.1 = h
    · refine ⟨e.2 ++ [v], ?_, by simp⟩
      unfold hmAppend
      rw [if_pos he]
      unfold alistGet?
      rw [if_pos rfl]
    · obtain ⟨vs, hvs, hne⟩ := ih h v
      refine ⟨vs, ?_, hne⟩
      unfold hmAppend
      rw [if_neg he]
      unfold alistGet?
      rw [if_neg he]
      exact hvs

theorem alistGet?_hmAppend_preserve :
    ∀ (hm : List (String × List (Int × Nat))) (h h' : String) (v : Int × Nat)
      (vs : List (Int × Nat)),
      alistGet? h hm = some vs → vs ≠ [] →
      ∃ vs', alistGet? h (hmAppend hm h' v) = some vs' ∧ vs' ≠ [] := by
  intro hm
  induction hm with
  | nil => intro h h' v vs hget; cases hget
  | cons e rest ih =>
    intro h h' v vs hget hne
    unfold alistGet? at hget
    by_cases hek : e.1 = h
    · rw [if_pos hek] at hget
      by_cases heh : e.1 = h'
      · refine ⟨e.2 ++ [v], ?_, by simp⟩
        unfold hmAppend
        rw [if_pos heh]
        unfold alistGet?
        rw [if_pos (heh ▸ hek)]
      · refine ⟨vs, ?_, hne⟩
        unfold hmAppend
        rw [if_neg heh]
        unfold alistGet?
        rw [if_pos hek]
        exact hget
    · rw [if_neg hek] at hget
      by_cases heh : e.1 = h'
      · refine ⟨vs, ?_, hne⟩
        unfold hmAppend
        rw [if_pos heh]
        unfold alistGet?
        rw [if_neg (heh ▸ hek)]
        exact hget
      · obtain ⟨vs', hvs', hne'⟩ := ih h h' v vs hget hne
        refine ⟨vs', ?_, hne'⟩
        unfold hmAppend
        rw [if_neg heh]
        unfold alistGet?
        rw [if_neg hek]
        exact hvs'

theorem buildHashMap_key_aux :
    ∀ (rows : List FpRow) (hm0 : List (String × List (Int × Nat))) (h : String),
      ((∃ r ∈ rows, r.hash_value = h) ∨ (∃ vs, alistGet? h hm0 = some vs ∧ vs ≠ [])) →
      ∃ vs, alistGet? h
          (rows.foldl (fun hm r => hmAppend hm r.hash_value (r.time_offset, r.song_id)) hm0)
        = some vs ∧ vs ≠ [] := by
  intro rows
  induction rows with
  | nil =>
    intro hm0 h hyp
    rcases hyp with ⟨r, hr, _⟩ | hyp
    · cases hr
    · exact hyp
  | cons r rows ih =>
    intro hm0 h hyp
    rw [List.foldl_cons]
    apply ih
    rcases hyp with ⟨r0, hr0, hr0h⟩ | ⟨vs, hvs, hne⟩
    · rcases List.mem_cons.mp hr0 with rfl | hr0
      · right
        exact hr0h ▸ alistGet?_hmAppend_self hm0 r0.hash_value (r0.time_offset, r0.song_id)
      · left
        exact ⟨r0, hr0, hr0h⟩
    · right
      exact alistGet?_hmAppend_preserve hm0 h r.hash_value _ vs hvs hne

theorem buildHashMap_key (rows : List FpRow) (r : FpRow) (hr : r ∈ rows) :
    ∃ vs, alistGet? r.hash_value (buildHashMap rows) = some vs ∧ vs ≠ [] :=
  buildHashMap_key_aux rows [] r.hash_value (Or.inl ⟨r, hr, rfl⟩)

theorem batchFold_empty_hm :
    ∀ (batch : List (String × Int)) (m : Matches), batchFold [] batch m = m := by
  intro batch
  induction batch with
  | nil => intro m; rfl
  | cons q batch ih =>
    intro m
    unfold batchFold at ih ⊢
    rw [List.foldl_cons]
    exact ih m

theorem accumulateBatch_of_no_rows (rows : List FpRow) (batch : List (String × Int))
    (m : Matches) (h : batchRows rows batch = []) :
    accumulateBatch rows batch m = m := by
  rw [accumulateBatch_eq, h, buildHashMap_nil]
  by_cases he : (batch.map Prod.fst).isEmpty
  · rw [if_pos he]
  · rw [if_neg he, batchFold_empty_hm]

theorem batchFold_ne_of_hit (hm : List (String × List (Int × Nat))) :
    ∀ (batch : List (String × Int)) (m : Matches),
      (∃ q ∈ batch, ((alistGet? q.1 hm).getD []) ≠ []) →
      batchFold hm batch m ≠ [] := by
  intro batch
  induction batch with
  | nil =>
    rintro m ⟨q, hq, _⟩
    cases hq
  | cons q0 batch ih =>
    rintro m ⟨q, hq, hvs⟩
    unfold batchFold
    rw [List.foldl_cons]
    rcases List.mem_cons.mp hq with rfl | hq
    · exact batchFold_ne_nil hm batch _ (postingFold_ne_nil q _ m (Or.inr hvs))
    · exact ih _ ⟨q, hq, hvs⟩

theorem accumulateBatch_ne_nil (rows : List FpRow) (batch : List (String × Int))
    (m : Matches) (h : batchRows rows batch ≠ []) :
    accumulateBatch rows batch m ≠ [] := by
  obtain ⟨r, hr⟩ := List.exists_mem_of_ne_nil _ h
  have hr2 := hr
  rw [batchRows, List.mem_filter] at hr2
  obtain ⟨hrow, hcont⟩ := hr2
  have hhash : r.hash_value ∈ batch.map Prod.fst := by
    simpa using hcont
  obtain ⟨q, hq, hqh⟩ := List.mem_map.mp hhash
  rw [accumulateBatch_eq]
  have hne : (batch.map Prod.fst).isEmpty = false := by
    rcases batch with _ | ⟨b0, bs⟩
    · cases hq
    · rfl
  rw [hne, if_neg (by simp : ¬ (false = true))]
  apply batchFold_ne_of_hit
  obtain ⟨vs, hvs, hvne⟩ := buildHashMap_key (batchRows rows batch) r hr
  refine ⟨q, hq, ?_⟩
  rw [hqh, hvs]
  exact hvne

theorem accumulateBatch_pres_ne (rows : List FpRow) (batch : List (String × Int))
    (m : Matches) (h : m ≠ []) : accumulateBatch rows batch m ≠ [] := by
  rw [accumulateBatch_eq]
  by_cases he : (batch.map Prod.fst).isEmpty
  · rw [if_pos he]; exact h
  · rw [if_neg he]; exact batchFold_ne_nil _ _ _ h

theorem runBatches_pres_ne (rows : List FpRow) :
    ∀ (bs : List (List (String × Int))) (m : Matches), m ≠ [] →
      runBatches rows bs m ≠ [] := by
  intro bs
  induction bs with
  | nil => intro m h; exact h
  | cons b bs ih =>
    intro m h
    unfold runBatches
    have h1 : accumulateBatch rows b m ≠ [] := accumulateBatch_pres_ne rows b m h
    rw [if_neg (by simpa using h1)]
    by_cases h80 : 80 < bestScoreAll (accumulateBatch rows b m)
    · rw [if_pos h80]; exact h1
    · rw [if_neg h80]; exact ih _ h1

theorem runBatches_nil_iff (rows : List FpRow) :
    ∀ (bs : List (List (String × Int))),
      runBatches rows bs [] = [] ↔ ∀ b ∈ bs, batchRows rows b = [] := by
  intro bs
  induction bs with
  | nil => simp [runBatches]
  | cons b bs ih =>
    constructor
    · intro h
      have hb : batchRows rows b = [] := by
        by_contra hb
        have h1 : accumulateBatch rows b [] ≠ [] := accumulateBatch_ne_nil rows b [] hb
        unfold runBatches at h
        rw [if_neg (by simpa using h1)] at h
        by_cases h80 : 80 < bestScoreAll (accumulateBatch rows b [])
        · rw [if_pos h80] at h
          exact h1 h
        · rw [if_neg h80] at h
          exact runBatches_pres_ne rows bs _ h1 h
      intro b' hb'
      rcases List.mem_cons.mp hb' with rfl | hb'
      · exact hb
      · have h0 : accumulateBatch rows b [] = [] := accumulateBatch_of_no_rows rows b [] hb
        unfold runBatches at h
        rw [h0] at h
        simp only [List.isEmpty_nil, if_true] at h
        exact (ih.mp h) b' hb'
    · intro h
      have h0 : accumulateBatch rows b [] = [] :=
        accumulateBatch_of_no_rows rows b [] (h b (List.mem_cons_self ..))
      unfold runBatches
      rw [h0]
      simp only [List.isEmpty_nil, if_true]
      exact ih.mpr fun b' hb' => h b' (List.mem_cons_of_mem _ hb')


theorem bumpCount_ne_nil (dm : DeltaMap) (d : Int) : bumpCount dm d ≠ [] := by
  match dm with
  | [] => simp [bumpCount]
  | c :: rest =>
    unfold bumpCount
    by_cases h : c.1 = d <;> simp [h]

theorem bumpCount_pos (dm : DeltaMap) (d : Int) (h : ∀ c ∈ dm, 1 ≤ c.2) :
    ∀ c ∈ bumpCount dm d, 1 ≤ c.2 := by
  induction dm with
  | nil =>
    intro c hc
    rcases List.mem_cons.mp hc with rfl | hc
    · exact Nat.le_refl 1
    · cases hc
  | cons c0 rest ih =>
    intro c hc
    unfold bumpCount at hc
    by_cases h0 : c0.1 = d
    · rw [if_pos h0] at hc
      rcases List.mem_cons.mp hc with rfl | hc
      · exact Nat.le_succ_of_le (h c0 (List.mem_cons_self ..))
      · exact h c (List.mem_cons_of_mem _ hc)
    · rw [if_neg h0] at hc
      rcases List.mem_cons.mp hc with rfl | hc
      · exact h c (List.mem_cons_self ..)
      · exact ih (fun c hc => h c (List.mem_cons_of_mem _ hc)) c hc

theorem bumpDelta_inv (rows : List FpRow) (sid : Nat) (d : Int)
    (hsid : ∃ r ∈ rows, sid = r.song_id) :
    ∀ (m : Matches), accInv rows m → accInv rows (bumpDelta m sid d) := by
  intro m
  induction m with
  | nil =>
    intro _ e he
    rcases List.mem_cons.mp he with rfl | he
    · refine ⟨hsid, by simp, ?_⟩
      intro c hc
      rcases List.mem_cons.mp hc with rfl | hc
      · exact Nat.le_refl 1
      · cases hc
    · cases he
  | cons e0 rest ih =>
    intro hinv e he
    unfold bumpDelta at he
    by_cases h0 : e0.1 = sid
    · rw [if_pos h0] at he
      rcases List.mem_cons.mp he with rfl | he
      · obtain ⟨_, _, hcnt⟩ := hinv e0 (List.mem_cons_self ..)
        exact ⟨hsid, bumpCount_ne_nil _ _, bumpCount_pos e0.2 d hcnt⟩
      · exact hinv e (List.mem_cons_of_mem _ he)
    · rw [if_neg h0] at he
      rcases List.mem_cons.mp he with rfl | he
      · exact hinv e (List.mem_cons_self ..)
      · exact ih (fun x hx => hinv x (List.mem_cons_of_mem _ hx)) e he

theorem postingFold_inv (rows : List FpRow) (q : String × Int) :
    ∀ (vs : List (Int × Nat)) (m : Matches),
      accInv rows m → (∀ p ∈ vs, ∃ r ∈ rows, p.2 = r.song_id) →
      accInv rows (postingFold q vs m) := by
  intro vs
  induction vs with
  | nil => intro m h _; exact h
  | cons v vs ih =>
    intro m hinv hprov
    unfold postingFold
    rw [List.foldl_cons]
    exact ih _ (bumpDelta_inv rows v.2 (v.1 - q.2)
        (hprov v (List.mem_cons_self ..)) m hinv)
      fun p hp => hprov p (List.mem_cons_of_mem _ hp)

theorem alistGet?_mem {α β : Type} [DecidableEq α] (k : α) :
    ∀ (al : List (α × β)) (v : β), alistGet? k al = some v → ∃ e ∈ al, e.1 = k ∧ e.2 = v := by
  intro al
  induction al with
  | nil => intro v h; cases h
  | cons e rest ih =>
    intro v h
    unfold alistGet? at h
    by_cases he : e.1 = k
    · rw [if_pos he] at h
      exact ⟨e, List.mem_cons_self .., he, Option.some_inj.mp h⟩
    · rw [if_neg he] at h
      obtain ⟨e', he', hk, hv⟩ := ih v h
      exact ⟨e', List.mem_cons_of_mem _ he', hk, hv⟩

theorem hmAppend_values :
    ∀ (hm : List (String × List (Int × Nat))) (h : String) (v : Int × Nat),
      ∀ e ∈ hmAppend hm h v, ∀ w ∈ e.2, (∃ e0 ∈ hm, w ∈ e0.2) ∨ w = v := by
  intro hm
  induction hm with
  | nil =>
    intro h v e he w hw
    rcases List.mem_cons.mp he with rfl | he
    · rcases List.mem_cons.mp hw with rfl | hw
      · exact Or.inr rfl
      · cases hw
    · cases he
  | cons e0 rest ih =>
    intro h v e he w hw
    unfold hmAppend at he
    by_cases h0 : e0.1 = h
    · rw [if_pos h0] at he
      rcases List.mem_cons.mp he with rfl | he
      · rcases List.mem_append.mp hw with hw | hw
        · exact Or.inl ⟨e0, List.mem_cons_self .., hw⟩
        · rcases List.mem_cons.mp hw with rfl | hw
          · exact Or.inr rfl
          · cases hw
      · exact Or.inl ⟨e, List.mem_cons_of_mem _ he, hw⟩
    · rw [if_neg h0] at he
      rcases List.mem_cons.mp he with rfl | he
      · exact Or.inl ⟨e, List.mem_cons_self .., hw⟩
      · rcases ih h v e he w hw with ⟨e1, he1, hw1⟩ | hw1
        · exact Or.inl ⟨e1, List.mem_cons_of_mem _ he1, hw1⟩
        · exact Or.inr hw1

theorem buildHashMap_values_aux (rows : List FpRow) :
    ∀ (rows2 : List FpRow) (hm0 : List (String × List (Int × Nat))),
      (∀ e ∈ hm0, ∀ w ∈ e.2, ∃ r ∈ rows, w.2 = r.song_id) →
      (∀ r2 ∈ rows2, ∃ r ∈ rows, r2.song_id = r.song_id) →
      ∀ e ∈ rows2.foldl (fun hm r => hmAppend hm r.hash_value (r.time_offset, r.song_id)) hm0,
        ∀ w ∈ e.2, ∃ r ∈ rows, w.2 = r.song_id := by
  intro rows2
  induction rows2 with
  | nil => intro hm0 h0 _; exact h0
  | cons r2 rows2 ih =>
    intro hm0 h0 hprov
    rw [List.foldl_cons]
    apply ih
    · intro e he w hw
      rcases hmAppend_values hm0 r2.hash_value (r2.time_offset, r2.song_id) e he w hw with
        ⟨e0, he0, hw0⟩ | rfl
      · exact h0 e0 he0 w hw0
      · exact hprov r2 (List.mem_cons_self ..)
    · intro r hr
      exact hprov r (List.mem_cons_of_mem _ hr)

theorem buildHashMap_values (rows : List FpRow) (batch : List (String × Int)) :
    ∀ e ∈ buildHashMap (batchRows rows batch), ∀ w ∈ e.2, ∃ r ∈ rows, w.2 = r.song_id := by
  apply buildHashMap_values_aux rows (batchRows rows batch) []
  · intro e he
    cases he
  · intro r2 hr2
    rw [batchRows, List.mem_filter] at hr2
    exact ⟨r2, hr2.1, rfl⟩

theorem batchFold_inv (rows : List FpRow) (hm : List (String × List (Int × Nat)))
    (hprov : ∀ e ∈ hm, ∀ w ∈ e.2, ∃ r ∈ rows, w.2 = r.song_id) :
    ∀ (batch : List (String × Int)) (m : Matches),
      accInv rows m → accInv rows (batchFold hm batch m) := by
  intro batch
  induction batch with
  | nil => intro m h; exact h
  | cons q batch ih =>
    intro m hinv
    unfold batchFold
    rw [List.foldl_cons]
    apply ih
    apply postingFold_inv rows q _ m hinv
    intro p hp
    match hget : alistGet? q.1 hm with
    | none =>
      rw [hget] at hp
      cases hp
    | some vs =>
      rw [hget] at hp
      obtain ⟨e, he, _, hv⟩ := alistGet?_mem q.1 hm vs hget
      exact hprov e he p (hv ▸ hp)

theorem accumulateBatch_inv (rows : List FpRow) (batch : List (String × Int))
    (m : Matches) (h : accInv rows m) : accInv rows (accumulateBatch rows batch m) := by
  rw [accumulateBatch_eq]
  by_cases he : (batch.map Prod.fst).isEmpty
  · rw [if_pos he]; exact h
  · rw [if_neg he]
    exact batchFold_inv rows _ (buildHashMap_values rows batch) batch m h

theorem runBatches_inv (rows : List FpRow) :
    ∀ (bs : List (List (String × Int))) (m : Matches),
      accInv rows m → accInv rows (runBatches rows bs m) := by
  intro bs
  induction bs with
  | nil => intro m h; exact h
  | cons b bs ih =>
    intro m h
    unfold runBatches
    have h1 : accInv rows (accumulateBatch rows b m) := accumulateBatch_inv rows b m h
    by_cases hemp : (accumulateBatch rows b m).isEmpty
    · rw [if_pos hemp]; exact ih _ h1
    · rw [if_neg hemp]
      by_cases h80 : 80 < bestScoreAll (accumulateBatch rows b m)
      · rw [if_pos h80]; exact h1
      · rw [if_neg h80]; exact ih _ h1

theorem accumulated_inv (rows : List FpRow) (q : List (String × Int)) :
    accInv rows (accumulated rows q) := by
  apply runBatches_inv
  intro e he
  cases he

/-- C1.  Over a store satisfying the schema invariants (serial ids are
positive; `fingerprints.song_id` is a foreign key into `songs`):
`find_matches` returns `None` for an empty query; the accumulator is empty
exactly when no batch lookup returns a posting; the result is `None` **iff**
the accumulator is empty or the best histogram peak fails the two thresholds
(`peak < 5` or `confidence_pct < 5`); and an accepted match reports
`confidence = peak` with
`confidence_pct = min(100, peak · 100 / 100)` and the original query length. -/
theorem find_matches_none_iff (db : DBState) (q : List (String × Int))
    (hid : ∀ r ∈ db.fingerprints, 0 < r.song_id)
    (hfk : ∀ r ∈ db.fingerprints, ∃ s ∈ db.songs, s.id = r.song_id) :
    (q = [] → find_matches db q = none) ∧
    (accumulated db.fingerprints q = [] ↔
      ∀ b ∈ chunks100 (sampleQuery q), batchRows db.fingerprints b = []) ∧
    (find_matches db q = none ↔
      (accumulated db.fingerprints q = [] ∨
        (rank (accumulated db.fingerprints q)).2 < MIN_MATCHING_FINGERPRINTS ∨
        confidencePct ((rank (accumulated db.fingerprints q)).2) < MIN_CONFIDENCE_PERCENTAGE)) ∧
    (∀ res, find_matches db q = some res →
      res.confidence = (rank (accumulated db.fingerprints q)).2 ∧
      res.confidence_percentage = min 100 ((res.confidence : ℚ) * 100 / 100) ∧
      res.total_query_prints = q.length) := by
  have hpart2 : accumulated db.fingerprints q = [] ↔
      ∀ b ∈ chunks100 (sampleQuery q), batchRows db.fingerprints b = [] :=
    runBatches_nil_iff db.fingerprints (chunks100 (sampleQuery q))
  by_cases hempty : accumulated db.fingerprints q = []
  · have hnone : find_matches db q = none := by
      simp only [find_matches, hempty, List.isEmpty_nil, if_true]
    refine ⟨fun _ => hnone, hpart2, ?_, ?_⟩
    · exact iff_of_true hnone (Or.inl hempty)
    · intro res hres
      rw [hnone] at hres
      cases hres
  · have hInv := accumulated_inv db.fingerprints q
    rcases rank_foldl_split (accumulated db.fingerprints q) (none, 0) with ⟨_, hbound⟩ | hwin
    · exfalso
      obtain ⟨e, he⟩ := List.exists_mem_of_ne_nil _ hempty
      obtain ⟨_, hne2, hcnt⟩ := hInv e he
      obtain ⟨c, hc⟩ := List.exists_mem_of_ne_nil _ hne2
      have h1 : 1 ≤ c.2 := hcnt c hc
      have h2 : c.2 ≤ maxCounts e.2 := le_maxCounts_of_mem hc
      have h3 : maxCounts e.2 ≤ 0 := hbound e he
      omega
    · obtain ⟨pre, e, post, hsplit, hres, _, hpre, hpost⟩ := hwin
      have hrank : rank (accumulated db.fingerprints q)
          = (some (e.1, maxKeyByCount e.2), maxCounts e.2) := by
        rw [rank_eq_foldl]
        exact hres
      have hmem : e ∈ accumulated db.fingerprints q := by
        rw [hsplit]
        exact List.mem_append_right _ (List.mem_cons_self ..)
      obtain ⟨⟨r, hrmem, hr⟩, hne2, hcnt⟩ := hInv e hmem
      have hid1 : 0 < e.1 := hr ▸ hid r hrmem
      obtain ⟨s, hs, hsid⟩ := hfk r hrmem
      have hfindS : (db.songs.find? (fun s0 => s0.id = e.1)).isSome :=
        List.find?_isSome.mpr ⟨s, hs, by simp [hsid, hr]⟩
      obtain ⟨song, hsong⟩ := Option.isSome_iff_exists.mp hfindS
      have hbs1 : 1 ≤ maxCounts e.2 := by
        obtain ⟨c, hc⟩ := List.exists_mem_of_ne_nil _ hne2
        exact le_trans (hcnt c hc) (le_maxCounts_of_mem hc)
      have hcompute : find_matches db q =
          (if maxCounts e.2 < MIN_MATCHING_FINGERPRINTS then none
           else if confidencePct (maxCounts e.2) < MIN_CONFIDENCE_PERCENTAGE then none
           else some ⟨song.id, song.title, song.artist, song.album, maxCounts e.2, q.length,
                      maxKeyByCount e.2, confidencePct (maxCounts e.2)⟩) := by
        simp only [find_matches, hrank, List.isEmpty_iff, hempty, if_false]
        by_cases hth1 : maxCounts e.2 < MIN_MATCHING_FINGERPRINTS
        · rw [if_pos hth1, if_pos hth1]
        · rw [if_neg hth1, if_neg hth1]
          by_cases hth2 : confidencePct (maxCounts e.2) < MIN_CONFIDENCE_PERCENTAGE
          · rw [if_pos hth2, if_pos hth2]
          · rw [if_neg hth2, if_neg hth2]
            rw [if_neg (by omega : ¬ e.1 = 0), if_pos (by omega : 0 < maxCounts e.2), hsong]
      refine ⟨?_, hpart2, ?_, ?_⟩
      · intro hq
        subst hq
        exact absurd rfl hempty
      · rw [hcompute, hrank]
        by_cases hth1 : maxCounts e.2 < MIN_MATCHING_FINGERPRINTS
        · rw [if_pos hth1]
          exact iff_of_true rfl (Or.inr (Or.inl hth1))
        · rw [if_neg hth1]
          by_cases hth2 : confidencePct (maxCounts e.2) < MIN_CONFIDENCE_PERCENTAGE
          · rw [if_pos hth2]
            exact iff_of_true rfl (Or.inr (Or.inr hth2))
          · rw [if_neg hth2]
            refine iff_of_false (by simp) ?_
            push_neg
            exact ⟨hempty, Nat.le_of_not_lt hth1, le_of_not_lt hth2⟩
      · intro res hres
        rw [hcompute] at hres
        by_cases hth1 : maxCounts e.2 < MIN_MATCHING_FINGERPRINTS
        · rw [if_pos hth1] at hres
          cases hres
        · rw [if_neg hth1] at hres
          by_cases hth2 : confidencePct (maxCounts e.2) < MIN_CONFIDENCE_PERCENTAGE
          · rw [if_pos hth2] at hres
            cases hres
          · rw [if_neg hth2] at hres
            have hres2 := Option.some_inj.mp hres
            subst hres2
            refine ⟨by rw [hrank], ?_, rfl⟩
            show confidencePct (maxCounts e.2)
              = min 100 ((maxCounts e.2 : ℚ) * 100 / 100)
            unfold confidencePct
            rw [div_mul_eq_mul_div]

unseal Rat.add Rat.mul Rat.inv Rat.sub in
/-- Witness for C1 on the concrete tie-break store: the hypotheses hold, the
query is accepted, and the reported fields satisfy the stated equations. -/
theorem find_matches_none_iff_witness :
    (find_matches dbC2 qC2 = none ↔
      (accumulated dbC2.fingerprints qC2 = [] ∨
        (rank (accumulated dbC2.fingerprints qC2)).2 < MIN_MATCHING_FINGERPRINTS ∨
        confidencePct ((rank (accumulated dbC2.fingerprints qC2)).2) < MIN_CONFIDENCE_PERCENTAGE)) ∧
    (∀ res, find_matches dbC2 qC2 = some res →
      res.confidence = (rank (accumulated dbC2.fingerprints qC2)).2 ∧
      res.confidence_percentage = min 100 ((res.confidence : ℚ) * 100 / 100) ∧
      res.total_query_prints = qC2.length) :=
  ⟨(find_matches_none_iff dbC2 qC2 (by decide) (by decide)).2.2.1,
   (find_matches_none_iff dbC2 qC2 (by decide) (by decide)).2.2.2⟩

end ShazamClone
